import Mathlib

/-!
Verification of the device-scoped admission-control component
(`backend/app/rate_limiter.py`): device fingerprinting, per-device session
caps, sliding-window HTTP rate limiting, and idle-session reclamation.

The Python module is shallowly embedded: Python `dict`s (insertion-ordered,
with `defaultdict` behaviour where the source uses it) become association
lists with explicit insert/erase/lookup; wall-clock time (`time.time()`,
`datetime.now()`) becomes an explicit `Int` parameter threaded through each
operation; SHA-256 is implemented in full over byte lists (`Nat < 256`),
with all 32-bit words represented as `Nat` reduced mod `2^32`.
-/

namespace RL

/-! ## Association lists with Python-dict semantics

Python dicts preserve insertion order; assignment to an existing key updates
in place, assignment to a fresh key appends.  `alGet?`, `alInsert`,
`alErase` mirror `d[k]`, `d[k] = v`, `del d[k]`. -/

def alGet? {β : Type} (m : List (String × β)) (k : String) : Option β :=
  match m with
  | [] => none
  | (k', v) :: t => if k' = k then some v else alGet? t k

def alInsert {β : Type} (m : List (String × β)) (k : String) (v : β) :
    List (String × β) :=
  match m with
  | [] => [(k, v)]
  | (k', v') :: t => if k' = k then (k, v) :: t else (k', v') :: alInsert t k v

def alErase {β : Type} (m : List (String × β)) (k : String) :
    List (String × β) :=
  match m with
  | [] => []
  | (k', v') :: t => if k' = k then t else (k', v') :: alErase t k

def alContains {β : Type} (m : List (String × β)) (k : String) : Bool :=
  (alGet? m k).isSome

@[simp] theorem alGet?_nil {β : Type} (k : String) :
    alGet? ([] : List (String × β)) k = none := rfl

@[simp] theorem alGet?_cons {β : Type} (k' : String) (v : β) (t) (k : String) :
    alGet? ((k', v) :: t) k = if k' = k then some v else alGet? t k := rfl

theorem alGet?_insert_self {β : Type} (m : List (String × β)) (k : String) (v : β) :
    alGet? (alInsert m k v) k = some v := by
  induction m with
  | nil => simp [alInsert]
  | cons p t ih =>
    obtain ⟨k', v'⟩ := p
    by_cases h : k' = k <;> simp [alInsert, h, ih]

theorem alGet?_insert_ne {β : Type} (m : List (String × β)) (k k' : String) (v : β)
    (h : k ≠ k') : alGet? (alInsert m k v) k' = alGet? m k' := by
  induction m with
  | nil => simp [alInsert, alGet?, h]
  | cons p t ih =>
    obtain ⟨k₀, v₀⟩ := p
    by_cases h0 : k₀ = k
    · subst h0
      simp [alInsert, h]
    · simp [alInsert, h0, ih]

theorem length_alInsert {β : Type} (m : List (String × β)) (k : String) (v : β) :
    (alInsert m k v).length =
      if (alGet? m k).isSome then m.length else m.length + 1 := by
  induction m with
  | nil => simp [alInsert]
  | cons p t ih =>
    obtain ⟨k', v'⟩ := p
    by_cases h : k' = k
    · simp [alInsert, h]
    · simp only [alInsert, if_neg h, List.length_cons, ih, alGet?_cons, h, if_false]
      by_cases h2 : (alGet? t k).isSome <;> simp [h2]

theorem length_alErase {β : Type} (m : List (String × β)) (k : String) :
    (alErase m k).length =
      if (alGet? m k).isSome then m.length - 1 else m.length := by
  induction m with
  | nil => simp [alErase]
  | cons p t ih =>
    obtain ⟨k', v'⟩ := p
    by_cases h : k' = k
    · simp [alErase, h]
    · simp only [alErase, if_neg h, List.length_cons, ih, alGet?_cons, h, if_false]
      by_cases h2 : (alGet? t k).isSome
      · rcases t with _ | ⟨q, t'⟩
        · simp [alGet?] at h2
        · simp [h2]
      · simp [h2]

theorem alGet?_erase_ne {β : Type} (m : List (String × β)) (k k' : String)
    (h : k ≠ k') : alGet? (alErase m k) k' = alGet? m k' := by
  induction m with
  | nil => simp [alErase]
  | cons p t ih =>
    obtain ⟨k₀, v₀⟩ := p
    by_cases h0 : k₀ = k
    · subst h0
      simp [alErase, h]
    · simp [alErase, h0, ih]

def alKeys {β : Type} (m : List (String × β)) : List String := m.map Prod.fst

theorem alGet?_eq_none_of_not_mem_keys {β : Type} (m : List (String × β))
    (k : String) (h : k ∉ alKeys m) : alGet? m k = none := by
  induction m with
  | nil => rfl
  | cons p t ih =>
    obtain ⟨k', v'⟩ := p
    simp only [alKeys, List.map_cons, List.mem_cons, not_or] at h
    simp [alGet?, Ne.symm h.1, ih (by simpa [alKeys] using h.2)]

theorem alGet?_erase_self {β : Type} (m : List (String × β)) (k : String)
    (hnd : (alKeys m).Nodup) : alGet? (alErase m k) k = none := by
  induction m with
  | nil => rfl
  | cons p t ih =>
    obtain ⟨k', v'⟩ := p
    simp only [alKeys, List.map_cons, List.nodup_cons] at hnd
    by_cases h : k' = k
    · subst h
      simpa [alErase] using alGet?_eq_none_of_not_mem_keys t k' hnd.1
    · simp [alErase, h, ih hnd.2]

theorem alKeys_insert {β : Type} (m : List (String × β)) (k : String) (v : β) :
    alKeys (alInsert m k v) =
      if (alGet? m k).isSome then alKeys m else alKeys m ++ [k] := by
  induction m with
  | nil => simp [alInsert, alKeys]
  | cons p t ih =>
    obtain ⟨k', v'⟩ := p
    by_cases h : k' = k
    · simp [alInsert, h, alKeys]
    · simp only [alInsert, if_neg h, alKeys, List.map_cons, alGet?_cons, h, if_false]
      by_cases h2 : (alGet? t k).isSome
      · simp only [h2, if_true] at ih ⊢
        simp [alKeys] at ih
        simp [ih]
      · simp only [h2, if_false] at ih ⊢
        simp [alKeys] at ih
        simp [ih]

theorem mem_alKeys_iff {β : Type} (m : List (String × β)) (k : String) :
    k ∈ alKeys m ↔ (alGet? m k).isSome := by
  induction m with
  | nil => simp [alKeys]
  | cons p t ih =>
    obtain ⟨k', v'⟩ := p
    by_cases h : k' = k
    · subst h
      simp [alKeys, alGet?]
    · have hck : alKeys ((k', v') :: t) = k' :: alKeys t := rfl
      rw [hck]
      simp only [List.mem_cons, alGet?_cons, h, if_false]
      simp [Ne.symm h, ih]

theorem alKeys_insert_nodup {β : Type} (m : List (String × β)) (k : String) (v : β)
    (hnd : (alKeys m).Nodup) : (alKeys (alInsert m k v)).Nodup := by
  rw [alKeys_insert]
  by_cases h : (alGet? m k).isSome
  · simpa [h] using hnd
  · have hk : k ∉ alKeys m := fun hmem => h ((mem_alKeys_iff m k).mp hmem)
    simp only [h, if_false]
    exact List.Nodup.append hnd (List.nodup_singleton k)
      (by simpa [List.disjoint_singleton] using hk)

/-! ## Data model (`rate_limiter.py`)

`SessionInfo` mirrors the dataclass; its two `datetime.now()` default
factories are two separate clock reads (observed to differ at microsecond
granularity), so the operation that constructs a record takes both reads as
explicit parameters `created_now` and `activity_now`, performed in that
order.  `DeviceRateLimiter` carries the two dicts and the configured cap;
`_lock_placeholder = None` is carried verbatim to record that the source
holds no lock. -/

def MAX_SESSIONS_PER_DEVICE : Nat := 8

def SESSION_CLEANUP_INTERVAL : Nat := 300

def MAX_HTTP_REQUESTS_PER_MINUTE : Nat := 60

structure SessionInfo where
  session_id : String
  user_id : String
  created_at : Int
  last_activity : Int
deriving Repr, DecidableEq

@[ext] structure DeviceRateLimiter where
  max_sessions : Nat
  active_sessions : List (String × List (String × SessionInfo))
  http_requests : List (String × List Int)
  lock_placeholder : Option Unit
deriving Repr, DecidableEq

def DeviceRateLimiter.init (max_sessions : Nat := MAX_SESSIONS_PER_DEVICE) :
    DeviceRateLimiter :=
  { max_sessions := max_sessions
    active_sessions := []
    http_requests := []
    lock_placeholder := none }

/-- `get_active_session_count`: `len(self._active_sessions.get(device_id, {}))`. -/
def get_active_session_count (st : DeviceRateLimiter) (device_id : String) : Nat :=
  ((alGet? st.active_sessions device_id).getD []).length

/-- `can_create_session`: `current_count < self.max_sessions`. -/
def can_create_session (st : DeviceRateLimiter) (device_id : String) : Bool :=
  get_active_session_count st device_id < st.max_sessions

/-- `register_session`: reject when `can_create_session` is false, otherwise
`self._active_sessions[device_id][session_id] = SessionInfo(...)` — the
`defaultdict` materialises an empty inner dict for a fresh device before the
assignment, and assignment to an existing `session_id` overwrites in place. -/
def register_session (st : DeviceRateLimiter)
    (device_id session_id user_id : String) (created_now activity_now : Int) :
    Bool × DeviceRateLimiter :=
  if ¬ can_create_session st device_id then
    (false, st)
  else
    let inner := (alGet? st.active_sessions device_id).getD []
    let info : SessionInfo :=
      { session_id := session_id, user_id := user_id
        created_at := created_now, last_activity := activity_now }
    let sessions' := alInsert st.active_sessions device_id
      (alInsert inner session_id info)
    (true, { st with active_sessions := sessions' })

/-- `unregister_session`: delete the record when both lookups succeed, then
delete the device entry if it became empty; otherwise return `False` with no
mutation. -/
def unregister_session (st : DeviceRateLimiter)
    (device_id session_id : String) : Bool × DeviceRateLimiter :=
  match alGet? st.active_sessions device_id with
  | none => (false, st)
  | some inner =>
    if alContains inner session_id then
      let inner' := alErase inner session_id
      let sessions' :=
        if inner'.isEmpty then alErase st.active_sessions device_id
        else alInsert st.active_sessions device_id inner'
      (true, { st with active_sessions := sessions' })
    else
      (false, st)

/-- `check_http_rate_limit`, with the module constant
`MAX_HTTP_REQUESTS_PER_MINUTE` abstracted as `cap`: prune the device's
timestamps to those with `ts > now - 60` (the `defaultdict` read plus the
assignment store the pruned list even on the rejecting path), reject when the
pruned length reaches `cap`, otherwise append `now` and admit. -/
def check_http_rate_limit_with (cap : Nat) (st : DeviceRateLimiter)
    (device_id : String) (now : Int) : Bool × DeviceRateLimiter :=
  let window_start := now - 60
  let pruned := ((alGet? st.http_requests device_id).getD []).filter
    (fun ts => decide (window_start < ts))
  let requests1 := alInsert st.http_requests device_id pruned
  let st1 := { st with http_requests := requests1 }
  if pruned.length ≥ cap then
    (false, st1)
  else
    let requests2 := alInsert st1.http_requests device_id (pruned ++ [now])
    (true, { st1 with http_requests := requests2 })

/-- `check_http_rate_limit` as in the source, at the module constant. -/
def check_http_rate_limit (st : DeviceRateLimiter) (device_id : String)
    (now : Int) : Bool × DeviceRateLimiter :=
  check_http_rate_limit_with MAX_HTTP_REQUESTS_PER_MINUTE st device_id now

/-- The predicate of the `if idle_time > max_idle_seconds` test in
`cleanup_stale_sessions`: `idle_time = (now - session.last_activity)`. -/
def is_stale (now max_idle_seconds : Int) (p : String × SessionInfo) : Bool :=
  decide (now - p.2.last_activity > max_idle_seconds)

/-- `cleanup_stale_sessions`: delete every record whose idle time strictly
exceeds `max_idle_seconds` (counting deletions), then delete device entries
left empty; iteration order over snapshots of the keys preserves the dicts'
insertion order. -/
def cleanup_stale_sessions (st : DeviceRateLimiter) (now : Int)
    (max_idle_seconds : Int := 3600) : Nat × DeviceRateLimiter :=
  let cleaned := (st.active_sessions.map
    (fun e => (e.2.filter (is_stale now max_idle_seconds)).length)).sum
  let swept := st.active_sessions.map
    (fun e => (e.1, e.2.filter (fun p => ! is_stale now max_idle_seconds p)))
  let sessions' := swept.filter (fun e => ! e.2.isEmpty)
  (cleaned, { st with active_sessions := sessions' })

/-! ## Operation sequences

An `Op` is one call to a mutating method of the limiter; `applyOp` discards
the returned value and keeps the post-state, `run` folds a call sequence
from a given state.  Times are carried explicitly by each call. -/

inductive Op where
  | reg (device_id session_id user_id : String) (created_now activity_now : Int)
  | unreg (device_id session_id : String)
  | http (device_id : String) (now : Int)
  | cleanup (now max_idle_seconds : Int)
deriving Repr, DecidableEq

def applyOp (st : DeviceRateLimiter) : Op → DeviceRateLimiter
  | Op.reg d s u tc ta => (register_session st d s u tc ta).2
  | Op.unreg d s => (unregister_session st d s).2
  | Op.http d now => (check_http_rate_limit st d now).2
  | Op.cleanup now mi => (cleanup_stale_sessions st now mi).2

def run (st : DeviceRateLimiter) (ops : List Op) : DeviceRateLimiter :=
  ops.foldl applyOp st

/-- The device keys an operation touches. -/
def Op.device : Op → Option String
  | Op.reg d _ _ _ _ => some d
  | Op.unreg d _ => some d
  | Op.http d _ => some d
  | Op.cleanup _ _ => none

/-! ## SHA-256 (FIPS 180-4)

`hashlib.sha256(...).hexdigest()` implemented over byte lists.  Words are
`Nat` reduced mod `2^32`; bytes are `Nat < 256`. -/

def w32 (x : Nat) : Nat := x % 4294967296

def rotr32 (n x : Nat) : Nat := w32 ((x >>> n) ||| (x <<< (32 - n)))

def notw32 (x : Nat) : Nat := x ^^^ 4294967295

def shaCh (x y z : Nat) : Nat := (x &&& y) ^^^ (notw32 x &&& z)

def shaMaj (x y z : Nat) : Nat := (x &&& y) ^^^ (x &&& z) ^^^ (y &&& z)

def bigSigma0 (x : Nat) : Nat := rotr32 2 x ^^^ rotr32 13 x ^^^ rotr32 22 x

def bigSigma1 (x : Nat) : Nat := rotr32 6 x ^^^ rotr32 11 x ^^^ rotr32 25 x

def smallSigma0 (x : Nat) : Nat := rotr32 7 x ^^^ rotr32 18 x ^^^ (x >>> 3)

def smallSigma1 (x : Nat) : Nat := rotr32 17 x ^^^ rotr32 19 x ^^^ (x >>> 10)

/-- The 64 SHA-256 round constants of FIPS 180-4 §4.2.2, in decimal. -/
def shaK : List Nat :=
  [1116352408, 1899447441, 3049323471, 3921009573, 961987163,
   1508970993, 2453635748, 2870763221, 3624381080, 310598401,
   607225278, 1426881987, 1925078388, 2162078206, 2614888103,
   3248222580, 3835390401, 4022224774, 264347078, 604807628,
   770255983, 1249150122, 1555081692, 1996064986, 2554220882,
   2821834349, 2952996808, 3210313671, 3336571891, 3584528711,
   113926993, 338241895, 666307205, 773529912, 1294757372,
   1396182291, 1695183700, 1986661051, 2177026350, 2456956037,
   2730485921, 2820302411, 3259730800, 3345764771, 3516065817,
   3600352804, 4094571909, 275423344, 430227734, 506948616,
   659060556, 883997877, 958139571, 1322822218, 1537002063,
   1747873779, 1955562222, 2024104815, 2227730452, 2361852424,
   2428436474, 2756734187, 3204031479, 3329325298]

structure Hash8 where
  h0 : Nat
  h1 : Nat
  h2 : Nat
  h3 : Nat
  h4 : Nat
  h5 : Nat
  h6 : Nat
  h7 : Nat
deriving Repr, DecidableEq

/-- The eight SHA-256 initial hash values of FIPS 180-4 §5.3.3, in
decimal. -/
def shaInit : Hash8 :=
  ⟨1779033703, 3144134277, 1013904242, 2773480762,
   1359893119, 2600822924, 528734635, 1541459225⟩

def compressStep (s : Hash8) (kw : Nat × Nat) : Hash8 :=
  let t1 := w32 (s.h7 + bigSigma1 s.h4 + shaCh s.h4 s.h5 s.h6 + kw.1 + kw.2)
  let t2 := w32 (bigSigma0 s.h0 + shaMaj s.h0 s.h1 s.h2)
  ⟨w32 (t1 + t2), s.h0, s.h1, s.h2, w32 (s.h3 + t1), s.h4, s.h5, s.h6⟩

def addHash8 (a b : Hash8) : Hash8 :=
  ⟨w32 (a.h0 + b.h0), w32 (a.h1 + b.h1), w32 (a.h2 + b.h2), w32 (a.h3 + b.h3),
   w32 (a.h4 + b.h4), w32 (a.h5 + b.h5), w32 (a.h6 + b.h6), w32 (a.h7 + b.h7)⟩

/-- Group a byte list into big-endian 32-bit words. -/
def bytesToWords : List Nat → List Nat
  | b0 :: b1 :: b2 :: b3 :: rest =>
    (((b0 * 256 + b1) * 256 + b2) * 256 + b3) :: bytesToWords rest
  | _ => []

/-- Extend the 16 block words to the 64-entry message schedule
(`fuel` counts the remaining extension steps, 48 from a 16-word start). -/
def extendWords (ws : List Nat) : Nat → List Nat
  | 0 => ws
  | fuel + 1 =>
    let i := ws.length
    let w := w32 (smallSigma1 (ws.getD (i - 2) 0) + ws.getD (i - 7) 0 +
      smallSigma0 (ws.getD (i - 15) 0) + ws.getD (i - 16) 0)
    extendWords (ws ++ [w]) fuel

def compressBlock (s : Hash8) (block : List Nat) : Hash8 :=
  let ws := extendWords (bytesToWords block) 48
  addHash8 s ((shaK.zip ws).foldl compressStep s)

def processBlocks (s : Hash8) (l : List Nat) : Hash8 :=
  if l.isEmpty then s
  else processBlocks (compressBlock s (l.take 64)) (l.drop 64)
termination_by l.length
decreasing_by
  rcases l with _ | ⟨x, xs⟩
  · simp at *
  · simp [List.length_drop]
    omega

/-- Big-endian byte decomposition: `k` bytes of `n`. -/
def toBytesBE : Nat → Nat → List Nat
  | 0, _ => []
  | k + 1, n => (n >>> (8 * k)) % 256 :: toBytesBE k n

/-- SHA-256 padding: `0x80`, zeros to 56 mod 64, 8-byte big-endian bit
length. -/
def padMessage (msg : List Nat) : List Nat :=
  msg ++ [0x80] ++ List.replicate ((119 - msg.length % 64) % 64) 0 ++
    toBytesBE 8 (msg.length * 8)

def hash8Bytes (s : Hash8) : List Nat :=
  toBytesBE 4 s.h0 ++ toBytesBE 4 s.h1 ++ toBytesBE 4 s.h2 ++ toBytesBE 4 s.h3 ++
  toBytesBE 4 s.h4 ++ toBytesBE 4 s.h5 ++ toBytesBE 4 s.h6 ++ toBytesBE 4 s.h7

/-- The 32 digest bytes of SHA-256 of a byte string. -/
def sha256 (msg : List Nat) : List Nat :=
  hash8Bytes (processBlocks shaInit (padMessage msg))

def hexDigitChar (n : Nat) : Char :=
  if n < 10 then Char.ofNat (48 + n) else Char.ofNat (87 + n)

def byteToHexChars (b : Nat) : List Char :=
  [hexDigitChar (b / 16), hexDigitChar (b % 16)]

/-- `hexdigest()` of a digest, as a character list. -/
def bytesToHexChars (bs : List Nat) : List Char :=
  bs.foldr (fun b acc => byteToHexChars b ++ acc) []

/-- UTF-8 encoding of one code point (Python `str.encode()`). -/
def utf8EncodeChar (c : Char) : List Nat :=
  let n := c.toNat
  if n < 0x80 then [n]
  else if n < 0x800 then
    [0xC0 ||| (n >>> 6), 0x80 ||| (n &&& 0x3F)]
  else if n < 0x10000 then
    [0xE0 ||| (n >>> 12), 0x80 ||| ((n >>> 6) &&& 0x3F), 0x80 ||| (n &&& 0x3F)]
  else
    [0xF0 ||| (n >>> 18), 0x80 ||| ((n >>> 12) &&& 0x3F),
     0x80 ||| ((n >>> 6) &&& 0x3F), 0x80 ||| (n &&& 0x3F)]

def utf8Encode (s : String) : List Nat :=
  s.data.foldr (fun c acc => utf8EncodeChar c ++ acc) []

/-- `hashlib.sha256(s.encode()).hexdigest()` as a character list. -/
def sha256HexChars (s : String) : List Char :=
  bytesToHexChars (sha256 (utf8Encode s))

/-! ## String primitives (Python `str` methods)

Transparent list-of-character implementations of `strip`, `lower`,
`split(",")`, `"|".join` and truthiness, so that all fingerprint
computations reduce in the kernel. -/

/-- Python truthiness of an optional string: `None` and `""` are falsy. -/
def truthyS : Option String → Bool
  | none => false
  | some s => s.data ≠ []

/-- `str.strip()`. -/
def pyStrip (s : String) : String :=
  ⟨((s.data.dropWhile Char.isWhitespace).reverse.dropWhile
      Char.isWhitespace).reverse⟩

/-- `str.lower()`. -/
def pyLower (s : String) : String :=
  ⟨s.data.map Char.toLower⟩

def splitCommaChars : List Char → List (List Char)
  | [] => [[]]
  | c :: t =>
    match splitCommaChars t with
    | [] => [[]]
    | g :: gs => if c = ',' then [] :: g :: gs else (c :: g) :: gs

/-- `str.split(",")` (always returns at least one group). -/
def pySplitComma (s : String) : List String :=
  (splitCommaChars s.data).map String.mk

/-- `"|".join(components)`. -/
def joinPipe : List String → String
  | [] => ""
  | [s] => s
  | s :: rest => s ++ "|" ++ joinPipe rest

/-! ## Fingerprinting (`_get_client_ip`, `_generate_device_fingerprint`)

Headers are modelled by the three lookups the source performs
(`headers.get` returns `None` for a missing header); the transport-reported
peer is `client : Option String` holding `client.host`. -/

structure Headers where
  x_forwarded_for : Option String := none
  x_real_ip : Option String := none
  user_agent : Option String := none
deriving Repr, DecidableEq

/-- `_get_client_ip`: first entry of a truthy `x-forwarded-for` (split on
comma, stripped), else a truthy `x-real-ip` (stripped), else `client.host`,
else `"unknown"`. -/
def get_client_ip (headers : Headers) (client : Option String) : String :=
  if truthyS headers.x_forwarded_for then
    pyStrip ((pySplitComma (headers.x_forwarded_for.getD "")).headD "")
  else if truthyS headers.x_real_ip then
    pyStrip (headers.x_real_ip.getD "")
  else
    match client with
    | some host => host
    | none => "unknown"

/-- `_generate_device_fingerprint`: normalize
(`client_ip.strip().lower()`, `(user_agent or "unknown").strip()`), join the
components (plus a truthy `custom_id`) with `"|"`, and take the first 32
characters of the SHA-256 hexdigest. -/
def generate_device_fingerprint (client_ip : String)
    (user_agent : Option String) (custom_id : Option String := none) :
    String :=
  let ip_normalized := pyLower (pyStrip client_ip)
  let ua_normalized :=
    pyStrip (if truthyS user_agent then user_agent.getD "" else "unknown")
  let components := [ip_normalized, ua_normalized] ++
    (if truthyS custom_id then [custom_id.getD ""] else [])
  let composite := joinPipe components
  String.mk ((sha256HexChars composite).take 32)

/-- `get_device_id_from_request` / `get_device_id_from_websocket`:
`headers.get("user-agent", "unknown")` then the fingerprint of the extracted
client address. -/
def get_device_id (headers : Headers) (client : Option String) : String :=
  let client_ip := get_client_ip headers client
  let user_agent := headers.user_agent.getD "unknown"
  generate_device_fingerprint client_ip (some user_agent)

/-- `get_stats`. -/
def get_stats (st : DeviceRateLimiter) : Nat × Nat × Nat :=
  (st.active_sessions.length,
   (st.active_sessions.map (fun e => e.2.length)).sum,
   st.max_sessions)

/-- Look up one session record: device entry, then record. -/
def lookup_session (st : DeviceRateLimiter) (device_id session_id : String) :
    Option SessionInfo :=
  match alGet? st.active_sessions device_id with
  | none => none
  | some inner => alGet? inner session_id

/-- Total number of stored session records (as summed by `get_stats`). -/
def totalSessions (st : DeviceRateLimiter) : Nat :=
  (st.active_sessions.map (fun e => e.2.length)).sum

/-! ## Further association-list lemmas -/

theorem mem_of_mem_alInsert {β : Type} {m : List (String × β)} {k : String}
    {v : β} {p : String × β} (h : p ∈ alInsert m k v) :
    p = (k, v) ∨ p ∈ m := by
  induction m with
  | nil => simpa [alInsert] using h
  | cons q t ih =>
    obtain ⟨k', v'⟩ := q
    by_cases hk : k' = k
    · simp only [alInsert, if_pos hk, List.mem_cons] at h
      rcases h with h | h
      · exact Or.inl h
      · exact Or.inr (List.mem_cons_of_mem _ h)
    · simp only [alInsert, if_neg hk, List.mem_cons] at h
      rcases h with h | h
      · exact Or.inr (by simp [h])
      · rcases ih h with h2 | h2
        · exact Or.inl h2
        · exact Or.inr (List.mem_cons_of_mem _ h2)

theorem alErase_sublist {β : Type} (m : List (String × β)) (k : String) :
    (alErase m k).Sublist m := by
  induction m with
  | nil => simp [alErase]
  | cons q t ih =>
    obtain ⟨k', v'⟩ := q
    by_cases hk : k' = k
    · simp only [alErase, if_pos hk]
      exact List.sublist_cons_self _ t
    · simp only [alErase, if_neg hk]
      exact List.Sublist.cons₂ _ ih

theorem alInsert_ne_nil {β : Type} (m : List (String × β)) (k : String) (v : β) :
    alInsert m k v ≠ [] := by
  cases m with
  | nil => simp [alInsert]
  | cons q t =>
    obtain ⟨k', v'⟩ := q
    by_cases hk : k' = k <;> simp [alInsert, hk]

theorem mem_of_alGet?_eq_some {β : Type} {m : List (String × β)} {k : String}
    {v : β} (h : alGet? m k = some v) : (k, v) ∈ m := by
  induction m with
  | nil => simp [alGet?] at h
  | cons q t ih =>
    obtain ⟨k', v'⟩ := q
    by_cases hk : k' = k
    · subst hk
      have hv : v' = v := by simpa [alGet?] using h
      subst hv
      exact List.mem_cons_self _ _
    · simp only [alGet?_cons, if_neg hk] at h
      exact List.mem_cons_of_mem _ (ih h)

/-- Lookup distributes over a key-preserving value map. -/
theorem alGet?_map_values {β γ : Type} (m : List (String × β)) (g : β → γ)
    (k : String) :
    alGet? (m.map (fun e => (e.1, g e.2))) k = (alGet? m k).map g := by
  induction m with
  | nil => simp [alGet?]
  | cons q t ih =>
    obtain ⟨k', v'⟩ := q
    by_cases hk : k' = k <;> simp [alGet?, hk, ih]

/-- Lookup after `List.filter` on a map with distinct keys. -/
theorem alGet?_filter_of_nodup {β : Type} (m : List (String × β))
    (q : String × β → Bool) (k : String) (hnd : (alKeys m).Nodup) :
    alGet? (m.filter q) k =
      match alGet? m k with
      | none => none
      | some v => if q (k, v) then some v else none := by
  induction m with
  | nil => simp [alGet?]
  | cons p t ih =>
    obtain ⟨k', v'⟩ := p
    simp only [alKeys, List.map_cons, List.nodup_cons] at hnd
    by_cases hk : k' = k
    · subst hk
      have ht : alGet? t k' = none :=
        alGet?_eq_none_of_not_mem_keys t k' (by simpa [alKeys] using hnd.1)
      by_cases hq : q (k', v')
      · simp [List.filter, hq, alGet?, ht]
      · have htf : alGet? (t.filter q) k' = none := by
          rw [ih (by simpa [alKeys] using hnd.2), ht]
        simp only [List.filter_cons, hq, if_false, Bool.false_eq_true, ite_false]
        simp [alGet?, htf, ht, hq]
    · by_cases hq : q (k', v') <;>
        simp [List.filter_cons, hq, alGet?, hk, ih (by simpa [alKeys] using hnd.2)]

theorem filter_length_add {α : Type} (p : α → Bool) (l : List α) :
    (l.filter p).length + (l.filter (fun x => ! p x)).length = l.length := by
  induction l with
  | nil => simp
  | cons x t ih =>
    by_cases hx : p x <;> simp [List.filter_cons, hx] <;> omega

/-! ## Well-formedness

Structural invariants of the two dicts that hold in every reachable state:
keys are distinct at both levels (Python dicts cannot hold duplicate keys)
and no device entry is empty. -/

def WF (st : DeviceRateLimiter) : Prop :=
  (alKeys st.active_sessions).Nodup ∧
  (∀ p ∈ st.active_sessions, (alKeys p.2).Nodup ∧ p.2 ≠ []) ∧
  (alKeys st.http_requests).Nodup

instance (st : DeviceRateLimiter) : Decidable (WF st) := by
  unfold WF
  infer_instance

/-! ## Operation characterizations -/

/-- The dict mutation performed by the success branch of `register_session`
(`self._active_sessions[device_id][session_id] = SessionInfo(...)`), on its
own, with no admission check. -/
def register_insert (st : DeviceRateLimiter) (d s u : String) (tc ta : Int) :
    DeviceRateLimiter :=
  let inner := (alGet? st.active_sessions d).getD []
  let sessions' := alInsert st.active_sessions d (alInsert inner s ⟨s, u, tc, ta⟩)
  { st with active_sessions := sessions' }

theorem register_session_eq (st : DeviceRateLimiter) (d s u : String)
    (tc ta : Int) :
    register_session st d s u tc ta =
      if can_create_session st d then (true, register_insert st d s u tc ta)
      else (false, st) := by
  by_cases h : can_create_session st d <;>
    simp [register_session, register_insert, h]

/-- The state rebuilt by the success branch of `unregister_session`. -/
def unregister_rest (st : DeviceRateLimiter) (d : String)
    (inner' : List (String × SessionInfo)) : DeviceRateLimiter :=
  let sessions' :=
    if inner'.isEmpty then alErase st.active_sessions d
    else alInsert st.active_sessions d inner'
  { st with active_sessions := sessions' }

theorem unregister_session_eq (st : DeviceRateLimiter) (d s : String) :
    unregister_session st d s =
      match alGet? st.active_sessions d with
      | none => (false, st)
      | some inner =>
        if alContains inner s then
          (true, unregister_rest st d (alErase inner s))
        else (false, st) := by
  unfold unregister_session unregister_rest
  rcases h : alGet? st.active_sessions d with _ | inner <;> simp

/-- The state produced by `cleanup_stale_sessions`. -/
theorem cleanup_snd (st : DeviceRateLimiter) (now mi : Int) :
    (cleanup_stale_sessions st now mi).2.active_sessions =
      (st.active_sessions.map
        (fun e => (e.1, e.2.filter (fun p => ! is_stale now mi p)))).filter
        (fun e => ! e.2.isEmpty) ∧
    (cleanup_stale_sessions st now mi).2.http_requests = st.http_requests ∧
    (cleanup_stale_sessions st now mi).2.max_sessions = st.max_sessions := by
  refine ⟨rfl, rfl, rfl⟩

theorem cleanup_fst (st : DeviceRateLimiter) (now mi : Int) :
    (cleanup_stale_sessions st now mi).1 =
      (st.active_sessions.map
        (fun e => (e.2.filter (is_stale now mi)).length)).sum := rfl

/-- The stored timestamp list for one device (`getD []` reflects the
`defaultdict`). -/
def httpList (st : DeviceRateLimiter) (d : String) : List Int :=
  (alGet? st.http_requests d).getD []

theorem check_http_eq (cap : Nat) (st : DeviceRateLimiter) (d : String)
    (now : Int) :
    check_http_rate_limit_with cap st d now =
      (let pruned := (httpList st d).filter (fun ts => decide (now - 60 < ts))
       let requests1 := alInsert st.http_requests d pruned
       if pruned.length ≥ cap then
         (false, { st with http_requests := requests1 })
       else
         (true, { st with http_requests := alInsert requests1 d (pruned ++ [now]) })) := rfl

/-- The post-state of a rejecting `check_http_rate_limit` call: the pruned
list is stored. -/
def http_reject_state (st : DeviceRateLimiter) (d : String)
    (pruned : List Int) : DeviceRateLimiter :=
  { st with http_requests := alInsert st.http_requests d pruned }

/-- The post-state of an admitting call: pruned list with `now` appended. -/
def http_admit_state (st : DeviceRateLimiter) (d : String)
    (pruned : List Int) (now : Int) : DeviceRateLimiter :=
  { st with http_requests :=
      alInsert (alInsert st.http_requests d pruned) d (pruned ++ [now]) }

theorem check_http_eq2 (cap : Nat) (st : DeviceRateLimiter) (d : String)
    (now : Int) :
    check_http_rate_limit_with cap st d now =
      if ((httpList st d).filter (fun ts => decide (now - 60 < ts))).length ≥ cap
      then (false, http_reject_state st d
        ((httpList st d).filter (fun ts => decide (now - 60 < ts))))
      else (true, http_admit_state st d
        ((httpList st d).filter (fun ts => decide (now - 60 < ts))) now) := rfl

theorem httpList_reject_state (st : DeviceRateLimiter) (d : String)
    (pruned : List Int) : httpList (http_reject_state st d pruned) d = pruned := by
  simp [httpList, http_reject_state, alGet?_insert_self]

theorem httpList_admit_state (st : DeviceRateLimiter) (d : String)
    (pruned : List Int) (now : Int) :
    httpList (http_admit_state st d pruned now) d = pruned ++ [now] := by
  simp [httpList, http_admit_state, alGet?_insert_self]

theorem check_http_active (cap : Nat) (st : DeviceRateLimiter) (d : String)
    (now : Int) :
    (check_http_rate_limit_with cap st d now).2.active_sessions =
        st.active_sessions ∧
      (check_http_rate_limit_with cap st d now).2.max_sessions =
        st.max_sessions := by
  rw [check_http_eq]
  by_cases h : ((httpList st d).filter (fun ts => decide (now - 60 < ts))).length ≥ cap <;>
    simp [h]

/-! ### Session-count lemmas -/

theorem register_active_of_can {st : DeviceRateLimiter} {d : String}
    (s u : String) (tc ta : Int) (h : can_create_session st d = true) :
    (register_session st d s u tc ta).2.active_sessions =
      alInsert st.active_sessions d
        (alInsert ((alGet? st.active_sessions d).getD []) s ⟨s, u, tc, ta⟩) := by
  rw [register_session_eq]
  simp [h, register_insert]

theorem register_fail {st : DeviceRateLimiter} {d : String} (s u : String)
    (tc ta : Int) (h : ¬ can_create_session st d = true) :
    register_session st d s u tc ta = (false, st) := by
  rw [register_session_eq]
  simp [h]

theorem register_untouched (st : DeviceRateLimiter) (d s u : String)
    (tc ta : Int) :
    (register_session st d s u tc ta).2.http_requests = st.http_requests ∧
      (register_session st d s u tc ta).2.max_sessions = st.max_sessions := by
  rw [register_session_eq]
  by_cases h : can_create_session st d <;> simp [h, register_insert]

theorem count_register_self_le (st : DeviceRateLimiter) (d s u : String)
    (tc ta : Int) :
    get_active_session_count (register_session st d s u tc ta).2 d ≤
      get_active_session_count st d + 1 := by
  by_cases h : can_create_session st d
  · rw [get_active_session_count, register_active_of_can s u tc ta h,
      alGet?_insert_self]
    simp only [Option.getD_some]
    rw [length_alInsert]
    unfold get_active_session_count
    by_cases h2 : (alGet? ((alGet? st.active_sessions d).getD []) s).isSome <;>
      simp [h2]
  · rw [register_fail s u tc ta h]
    simp

theorem count_register_other (st : DeviceRateLimiter) (d s u : String)
    (tc ta : Int) (d' : String) (hne : d' ≠ d) :
    get_active_session_count (register_session st d s u tc ta).2 d' =
      get_active_session_count st d' := by
  by_cases h : can_create_session st d
  · rw [get_active_session_count, register_active_of_can s u tc ta h,
      alGet?_insert_ne _ _ _ _ (Ne.symm hne)]
    rfl
  · rw [register_fail s u tc ta h]

theorem count_register_of_mem (st : DeviceRateLimiter) (d s u : String)
    (tc ta : Int)
    (hmem : (alGet? ((alGet? st.active_sessions d).getD []) s).isSome) :
    get_active_session_count (register_session st d s u tc ta).2 d =
      get_active_session_count st d := by
  by_cases h : can_create_session st d
  · rw [get_active_session_count, register_active_of_can s u tc ta h,
      alGet?_insert_self]
    simp only [Option.getD_some]
    rw [length_alInsert]
    simp [hmem, get_active_session_count]
  · rw [register_fail s u tc ta h]

/-! ### Lookup lemmas -/

theorem lookup_register_self (st : DeviceRateLimiter) (d s u : String)
    (tc ta : Int) (h : can_create_session st d = true) :
    lookup_session (register_session st d s u tc ta).2 d s =
      some ⟨s, u, tc, ta⟩ := by
  rw [lookup_session, register_active_of_can s u tc ta h, alGet?_insert_self]
  simp [alGet?_insert_self]

theorem lookup_register_ne (st : DeviceRateLimiter) (d s u : String)
    (tc ta : Int) (d' s' : String) (hne : ¬ (d' = d ∧ s' = s)) :
    lookup_session (register_session st d s u tc ta).2 d' s' =
      lookup_session st d' s' := by
  by_cases h : can_create_session st d
  · by_cases hd : d' = d
    · subst hd
      have hs : s' ≠ s := fun hs => hne ⟨rfl, hs⟩
      rw [lookup_session, register_active_of_can s u tc ta h, alGet?_insert_self]
      simp only
      rw [alGet?_insert_ne _ _ _ _ (Ne.symm hs)]
      rw [lookup_session]
      rcases h2 : alGet? st.active_sessions d' with _ | inner <;> simp [h2]
    · rw [lookup_session, register_active_of_can s u tc ta h,
        alGet?_insert_ne _ _ _ _ (Ne.symm hd)]
      rfl
  · rw [register_fail s u tc ta h]

theorem unreg_not_found (st : DeviceRateLimiter) (d s : String)
    (h : lookup_session st d s = none) :
    unregister_session st d s = (false, st) := by
  rw [unregister_session_eq]
  rcases h2 : alGet? st.active_sessions d with _ | inner
  · simp
  · have h3 : alGet? inner s = none := by simpa [lookup_session, h2] using h
    simp [alContains, h3]

theorem unreg_fst (st : DeviceRateLimiter) (d s : String) :
    (unregister_session st d s).1 = (lookup_session st d s).isSome := by
  rw [unregister_session_eq, lookup_session]
  rcases h2 : alGet? st.active_sessions d with _ | inner
  · simp
  · by_cases h : alContains inner s = true <;>
      simp only [alContains] at h <;> simp [alContains, h]

theorem unreg_snd_found (st : DeviceRateLimiter) (d s : String)
    (inner : List (String × SessionInfo))
    (hin : alGet? st.active_sessions d = some inner)
    (hs : (alGet? inner s).isSome) :
    (unregister_session st d s).2 = unregister_rest st d (alErase inner s) := by
  rw [unregister_session_eq, hin]
  simp [alContains, hs]

theorem alErase_eq_nil {β : Type} (m : List (String × β)) (k : String)
    (hne : m ≠ []) (h : alErase m k = []) : ∃ v, m = [(k, v)] := by
  rcases m with _ | ⟨⟨k', v'⟩, t⟩
  · exact absurd rfl hne
  · by_cases hk : k' = k
    · subst hk
      simp only [alErase, if_pos rfl] at h
      subst h
      exact ⟨v', rfl⟩
    · simp [alErase, hk] at h

/-! ### Well-formedness preservation -/

theorem alKeys_sublist {β : Type} {m' m : List (String × β)}
    (h : m'.Sublist m) : (alKeys m').Sublist (alKeys m) :=
  h.map Prod.fst

theorem alKeys_map_values {β γ : Type} (m : List (String × β)) (g : β → γ) :
    alKeys (m.map (fun e => (e.1, g e.2))) = alKeys m := by
  simp [alKeys, List.map_map, Function.comp]

theorem inner_nodup_of_get {st : DeviceRateLimiter} {d : String}
    (h : WF st) :
    (alKeys ((alGet? st.active_sessions d).getD [])).Nodup := by
  rcases h2 : alGet? st.active_sessions d with _ | inner
  · simp [alKeys]
  · simpa using (h.2.1 _ (mem_of_alGet?_eq_some h2)).1

theorem WF_init (maxs : Nat) : WF (DeviceRateLimiter.init maxs) := by
  refine ⟨List.nodup_nil, ?_, List.nodup_nil⟩
  intro p hp
  simp [DeviceRateLimiter.init] at hp

theorem unregister_rest_untouched (st : DeviceRateLimiter) (d : String)
    (inner' : List (String × SessionInfo)) :
    (unregister_rest st d inner').http_requests = st.http_requests ∧
      (unregister_rest st d inner').max_sessions = st.max_sessions := by
  unfold unregister_rest
  by_cases h : inner'.isEmpty <;> simp [h]

theorem WF_register (st : DeviceRateLimiter) (d s u : String) (tc ta : Int)
    (h : WF st) : WF (register_session st d s u tc ta).2 := by
  by_cases hc : can_create_session st d
  · obtain ⟨ho, hi, hh⟩ := h
    refine ⟨?_, ?_, ?_⟩
    · rw [register_active_of_can s u tc ta hc]
      exact alKeys_insert_nodup _ _ _ ho
    · rw [register_active_of_can s u tc ta hc]
      intro p hp
      rcases mem_of_mem_alInsert hp with hp' | hp'
      · subst hp'
        refine ⟨alKeys_insert_nodup _ _ _ ?_, alInsert_ne_nil _ _ _⟩
        exact inner_nodup_of_get ⟨ho, hi, hh⟩
      · exact hi p hp'
    · rw [(register_untouched st d s u tc ta).1]
      exact hh
  · rw [register_fail s u tc ta hc]
    exact h

theorem WF_unregister (st : DeviceRateLimiter) (d s : String) (h : WF st) :
    WF (unregister_session st d s).2 := by
  rcases hl : lookup_session st d s with _ | v
  · rw [unreg_not_found st d s hl]
    exact h
  · rw [lookup_session] at hl
    rcases h2 : alGet? st.active_sessions d with _ | inner
    · rw [h2] at hl
      simp at hl
    · rw [h2] at hl
      simp only at hl
      have hs : (alGet? inner s).isSome := by simp [hl]
      rw [unreg_snd_found st d s inner h2 hs]
      obtain ⟨ho, hi, hh⟩ := h
      have hinner_mem : (d, inner) ∈ st.active_sessions := mem_of_alGet?_eq_some h2
      have hinner_nd : (alKeys (alErase inner s)).Nodup :=
        ((hi _ hinner_mem).1).sublist (alKeys_sublist (alErase_sublist inner s))
      unfold unregister_rest
      by_cases he : (alErase inner s).isEmpty
      · simp only [he, if_true]
        refine ⟨ho.sublist (alKeys_sublist (alErase_sublist _ d)), ?_, hh⟩
        intro p hp
        exact hi p ((alErase_sublist _ d).subset hp)
      · simp only [he, if_false]
        refine ⟨alKeys_insert_nodup _ _ _ ho, ?_, hh⟩
        intro p hp
        rcases mem_of_mem_alInsert hp with hp' | hp'
        · subst hp'
          exact ⟨hinner_nd, by simpa [List.isEmpty_iff] using he⟩
        · exact hi p hp'

theorem WF_http (cap : Nat) (st : DeviceRateLimiter) (d : String) (now : Int)
    (h : WF st) : WF (check_http_rate_limit_with cap st d now).2 := by
  obtain ⟨ho, hi, hh⟩ := h
  rw [check_http_eq]
  by_cases hb : ((httpList st d).filter (fun ts => decide (now - 60 < ts))).length ≥ cap
  · simp only [hb, ite_true, ge_iff_le]
    exact ⟨ho, hi, alKeys_insert_nodup _ _ _ hh⟩
  · simp only [hb, ite_false, ge_iff_le]
    exact ⟨ho, hi, alKeys_insert_nodup _ _ _ (alKeys_insert_nodup _ _ _ hh)⟩

theorem WF_cleanup (st : DeviceRateLimiter) (now mi : Int) (h : WF st) :
    WF (cleanup_stale_sessions st now mi).2 := by
  obtain ⟨ho, hi, hh⟩ := h
  obtain ⟨ha, hhtp, hmax⟩ := cleanup_snd st now mi
  refine ⟨?_, ?_, ?_⟩
  · rw [ha]
    refine List.Nodup.sublist (alKeys_sublist (List.filter_sublist _)) ?_
    rw [alKeys_map_values]
    exact ho
  · rw [ha]
    intro p hp
    have hp2 := (List.filter_sublist _).subset hp
    have hkeep := List.of_mem_filter hp
    rcases List.mem_map.mp hp2 with ⟨e, he, rfl⟩
    constructor
    · exact ((hi e he).1).sublist (alKeys_sublist (List.filter_sublist _))
    · simpa [List.isEmpty_iff] using hkeep
  · rw [hhtp]
    exact hh

theorem WF_applyOp (st : DeviceRateLimiter) (op : Op) (h : WF st) :
    WF (applyOp st op) := by
  cases op with
  | reg d s u tc ta => exact WF_register st d s u tc ta h
  | unreg d s => exact WF_unregister st d s h
  | http d now => exact WF_http _ st d now h
  | cleanup now mi => exact WF_cleanup st now mi h

theorem WF_run (st : DeviceRateLimiter) (ops : List Op) (h : WF st) :
    WF (run st ops) := by
  induction ops generalizing st with
  | nil => exact h
  | cons op rest ih => exact ih _ (WF_applyOp st op h)

/-! ### Count bounds per operation -/

theorem count_unreg_le (st : DeviceRateLimiter) (d s : String) (h : WF st)
    (d' : String) :
    get_active_session_count (unregister_session st d s).2 d' ≤
      get_active_session_count st d' := by
  rcases hl : lookup_session st d s with _ | v
  · rw [unreg_not_found st d s hl]
  · rw [lookup_session] at hl
    rcases h2 : alGet? st.active_sessions d with _ | inner
    · rw [h2] at hl
      simp at hl
    · rw [h2] at hl
      simp only at hl
      have hs : (alGet? inner s).isSome := by simp [hl]
      rw [unreg_snd_found st d s inner h2 hs]
      unfold unregister_rest get_active_session_count
      by_cases he : (alErase inner s).isEmpty
      · simp only [he, if_true]
        by_cases hd : d' = d
        · subst hd
          rw [alGet?_erase_self _ _ h.1]
          simp
        · rw [alGet?_erase_ne _ _ _ (fun hdd => hd hdd.symm)]
      · simp only [he, Bool.false_eq_true, if_false]
        by_cases hd : d' = d
        · subst hd
          rw [alGet?_insert_self, h2]
          simp only [Option.getD_some]
          rw [length_alErase]
          simp [hs]
        · rw [alGet?_insert_ne _ _ _ _ (fun hdd => hd hdd.symm)]

theorem count_cleanup_le (st : DeviceRateLimiter) (now mi : Int) (h : WF st)
    (d : String) :
    get_active_session_count (cleanup_stale_sessions st now mi).2 d ≤
      get_active_session_count st d := by
  obtain ⟨ha, _, _⟩ := cleanup_snd st now mi
  unfold get_active_session_count
  rw [ha, alGet?_filter_of_nodup _ _ _ (by rw [alKeys_map_values]; exact h.1),
    alGet?_map_values]
  rcases h2 : alGet? st.active_sessions d with _ | inner
  · simp
  · simp only [Option.map_some']
    by_cases hk : (! (inner.filter (fun p => ! is_stale now mi p)).isEmpty) = true
    · rw [if_pos hk]
      simpa using List.length_filter_le _ _
    · rw [if_neg hk]
      simp

theorem count_http (cap : Nat) (st : DeviceRateLimiter) (dh : String)
    (now : Int) (d : String) :
    get_active_session_count (check_http_rate_limit_with cap st dh now).2 d =
      get_active_session_count st d := by
  unfold get_active_session_count
  rw [(check_http_active cap st dh now).1]

theorem max_applyOp (st : DeviceRateLimiter) (op : Op) :
    (applyOp st op).max_sessions = st.max_sessions := by
  cases op with
  | reg d s u tc ta => exact (register_untouched st d s u tc ta).2
  | unreg d s =>
    show (unregister_session st d s).2.max_sessions = st.max_sessions
    rw [unregister_session_eq]
    rcases alGet? st.active_sessions d with _ | inner
    · rfl
    · by_cases hc : alContains inner s = true
      · simp only [hc, if_true]
        exact (unregister_rest_untouched st d _).2
      · simp [hc]
  | http d now => exact (check_http_active _ st d now).2
  | cleanup now mi => exact (cleanup_snd st now mi).2.2

/-- The reachable-state invariant behind C1: configured cap unchanged,
structural well-formedness, and every device's session count within the
cap. -/
def Inv (maxs : Nat) (st : DeviceRateLimiter) : Prop :=
  st.max_sessions = maxs ∧ WF st ∧
    ∀ d, get_active_session_count st d ≤ maxs

theorem Inv_init (maxs : Nat) : Inv maxs (DeviceRateLimiter.init maxs) := by
  refine ⟨rfl, WF_init maxs, ?_⟩
  intro d
  simp [get_active_session_count, DeviceRateLimiter.init, alGet?]

theorem Inv_applyOp (maxs : Nat) (st : DeviceRateLimiter) (op : Op)
    (h : Inv maxs st) : Inv maxs (applyOp st op) := by
  obtain ⟨hmax, hwf, hcnt⟩ := h
  refine ⟨by rw [max_applyOp, hmax], WF_applyOp st op hwf, ?_⟩
  intro d'
  cases op with
  | reg d s u tc ta =>
    show get_active_session_count (register_session st d s u tc ta).2 d' ≤ maxs
    by_cases hd : d' = d
    · subst hd
      by_cases hc : can_create_session st d'
      · have hlt : get_active_session_count st d' < maxs := by
          have := of_decide_eq_true hc
          rwa [hmax] at this
        calc get_active_session_count (register_session st d' s u tc ta).2 d'
            ≤ get_active_session_count st d' + 1 :=
              count_register_self_le st d' s u tc ta
          _ ≤ maxs := hlt
      · rw [register_fail s u tc ta hc]
        exact hcnt d'
    · rw [count_register_other st d s u tc ta d' hd]
      exact hcnt d'
  | unreg d s => exact (count_unreg_le st d s hwf d').trans (hcnt d')
  | http d now =>
    show get_active_session_count
        (check_http_rate_limit_with MAX_HTTP_REQUESTS_PER_MINUTE st d now).2 d' ≤ maxs
    rw [count_http MAX_HTTP_REQUESTS_PER_MINUTE st d now d']
    exact hcnt d'
  | cleanup now mi => exact (count_cleanup_le st now mi hwf d').trans (hcnt d')

theorem Inv_run (maxs : Nat) (st : DeviceRateLimiter) (ops : List Op)
    (h : Inv maxs st) : Inv maxs (run st ops) := by
  induction ops generalizing st with
  | nil => exact h
  | cons op rest ih => exact ih _ (Inv_applyOp maxs st op h)

theorem register_fst (st : DeviceRateLimiter) (d s u : String) (tc ta : Int) :
    (register_session st d s u tc ta).1 = can_create_session st d := by
  rw [register_session_eq]
  by_cases h : can_create_session st d <;> simp [h]

theorem lookup_isSome_getD {st : DeviceRateLimiter} {d s : String}
    {v : SessionInfo} (h : lookup_session st d s = some v) :
    (alGet? ((alGet? st.active_sessions d).getD []) s).isSome := by
  rw [lookup_session] at h
  rcases h2 : alGet? st.active_sessions d with _ | inner
  · rw [h2] at h
    simp at h
  · rw [h2] at h
    simp only at h
    simp [h]

/-! ## Claims -/

/-- C1: for every device key and every call sequence, the active-session
count never exceeds `max_sessions`; a `register_session` call made when the
count equals `max_sessions` returns `False` and leaves the limiter
unchanged (strict `<` boundary); and a `register_session` call never evicts
any other stored record. -/
theorem session_cap_never_exceeded :
    (∀ (maxs : Nat) (ops : List Op) (d : String),
      get_active_session_count (run (DeviceRateLimiter.init maxs) ops) d ≤ maxs) ∧
    (∀ (st : DeviceRateLimiter) (d s u : String) (tc ta : Int),
      get_active_session_count st d = st.max_sessions →
        register_session st d s u tc ta = (false, st)) ∧
    (∀ (st : DeviceRateLimiter) (d s u : String) (tc ta : Int) (d' s' : String),
      ¬ (d' = d ∧ s' = s) →
        lookup_session (register_session st d s u tc ta).2 d' s' =
          lookup_session st d' s') := by
  refine ⟨?_, ?_, ?_⟩
  · intro maxs ops d
    exact (Inv_run maxs _ ops (Inv_init maxs)).2.2 d
  · intro st d s u tc ta h
    refine register_fail s u tc ta ?_
    simp [can_create_session, h]
  · intro st d s u tc ta d' s' hne
    exact lookup_register_ne st d s u tc ta d' s' hne

/-- Witness for C1: a device at its cap (`max_sessions = 1`, one session
held) has a rejected, mutation-free registration, and registration preserves
the other stored record. -/
theorem session_cap_never_exceeded_witness :
    get_active_session_count
        (run (DeviceRateLimiter.init 1) [Op.reg "d" "s1" "u" 0 0]) "d" ≤ 1 ∧
    register_session (run (DeviceRateLimiter.init 1) [Op.reg "d" "s1" "u" 0 0])
        "d" "s2" "u2" 1 1 =
      (false, run (DeviceRateLimiter.init 1) [Op.reg "d" "s1" "u" 0 0]) ∧
    lookup_session
        (register_session (run (DeviceRateLimiter.init 1) [Op.reg "d" "s1" "u" 0 0])
          "e" "s2" "u2" 1 1).2 "d" "s1" =
      lookup_session (run (DeviceRateLimiter.init 1) [Op.reg "d" "s1" "u" 0 0]) "d" "s1" :=
  ⟨session_cap_never_exceeded.1 1 [Op.reg "d" "s1" "u" 0 0] "d",
   session_cap_never_exceeded.2.1 _ "d" "s2" "u2" 1 1 (by decide),
   session_cap_never_exceeded.2.2 _ "e" "s2" "u2" 1 1 "d" "s1" (by decide)⟩

/-- C7: registering the same `(device_id, session_id)` twice does not
increase the device's active-session count; when the second call succeeds it
has overwritten the record in place with the new registration. -/
theorem reregister_same_id_overwrites (st : DeviceRateLimiter)
    (d s u u' : String) (tc ta tc' ta' : Int) :
    get_active_session_count
        (register_session (register_session st d s u tc ta).2 d s u' tc' ta').2 d =
      get_active_session_count (register_session st d s u tc ta).2 d ∧
    ((register_session (register_session st d s u tc ta).2 d s u' tc' ta').1 = true →
      lookup_session
          (register_session (register_session st d s u tc ta).2 d s u' tc' ta').2 d s =
        some ⟨s, u', tc', ta'⟩) := by
  by_cases hc1 : can_create_session st d
  · have hlook := lookup_register_self st d s u tc ta hc1
    have hmem := lookup_isSome_getD hlook
    constructor
    · exact count_register_of_mem _ d s u' tc' ta' hmem
    · intro hfst
      rw [register_fst] at hfst
      exact lookup_register_self _ d s u' tc' ta' hfst
  · rw [register_fail s u tc ta hc1]
    constructor
    · by_cases hc2 : can_create_session st d
      · exact absurd hc2 hc1
      · rw [register_fail s u' tc' ta' hc2]
    · intro hfst
      rw [register_fst] at hfst
      exact absurd hfst hc1

/-- Witness for C7: concrete double registration of the same id. -/
theorem reregister_same_id_overwrites_witness :
    get_active_session_count
        (register_session
          (register_session (DeviceRateLimiter.init 8) "d" "s" "u" 0 0).2
          "d" "s" "u2" 1 2).2 "d" =
      get_active_session_count
        (register_session (DeviceRateLimiter.init 8) "d" "s" "u" 0 0).2 "d" ∧
    ((register_session
          (register_session (DeviceRateLimiter.init 8) "d" "s" "u" 0 0).2
          "d" "s" "u2" 1 2).1 = true →
      lookup_session
          (register_session
            (register_session (DeviceRateLimiter.init 8) "d" "s" "u" 0 0).2
            "d" "s" "u2" 1 2).2 "d" "s" =
        some ⟨"s", "u2", 1, 2⟩) :=
  reregister_same_id_overwrites (DeviceRateLimiter.init 8) "d" "s" "u" "u2" 0 0 1 2

/-- C6: `unregister_session` returns `True` exactly when the record is
present, and then removes it and only it; a device entry left empty is
itself removed (so the count is 0 and the key absent from storage);
unregistering a nonexistent pair returns `False` and mutates nothing. -/
theorem unregister_removes_iff_present (st : DeviceRateLimiter) (d s : String)
    (hWF : WF st) :
    ((unregister_session st d s).1 = (lookup_session st d s).isSome) ∧
    ((lookup_session st d s).isSome = false →
      unregister_session st d s = (false, st)) ∧
    ((lookup_session st d s).isSome = true →
      lookup_session (unregister_session st d s).2 d s = none ∧
      get_active_session_count (unregister_session st d s).2 d =
        get_active_session_count st d - 1 ∧
      (∀ d' s', ¬ (d' = d ∧ s' = s) →
        lookup_session (unregister_session st d s).2 d' s' =
          lookup_session st d' s') ∧
      (get_active_session_count (unregister_session st d s).2 d = 0 →
        alGet? (unregister_session st d s).2.active_sessions d = none)) := by
  rcases hl : lookup_session st d s with _ | v
  · refine ⟨by rw [unreg_fst, hl], fun _ => unreg_not_found st d s hl, ?_⟩
    intro h
    simp at h
  · have hl' := hl
    rw [lookup_session] at hl'
    rcases h2 : alGet? st.active_sessions d with _ | inner
    · rw [h2] at hl'
      simp at hl'
    · rw [h2] at hl'
      simp only at hl'
      have hs : (alGet? inner s).isSome := by simp [hl']
      have hinner_ne : inner ≠ [] := by
        intro he
        rw [he] at hl'
        simp [alGet?] at hl'
      have hinner_nd : (alKeys inner).Nodup :=
        (hWF.2.1 _ (mem_of_alGet?_eq_some h2)).1
      have hsnd := unreg_snd_found st d s inner h2 hs
      refine ⟨by rw [unreg_fst, hl], ?_, ?_⟩
      · intro h
        simp at h
      · intro _
        rw [hsnd]
        unfold unregister_rest
        by_cases he : (alErase inner s).isEmpty
        · have hnil : alErase inner s = [] := by simpa [List.isEmpty_iff] using he
          obtain ⟨w, hw⟩ := alErase_eq_nil inner s hinner_ne hnil
          simp only [he, if_true]
          refine ⟨?_, ?_, ?_, ?_⟩
          · rw [lookup_session, alGet?_erase_self _ _ hWF.1]
          · rw [get_active_session_count, alGet?_erase_self _ _ hWF.1,
              get_active_session_count, h2]
            simp only [Option.getD_none, Option.getD_some, List.length_nil]
            rw [hw]
            simp
          · intro d' s' hne
            by_cases hd : d' = d
            · subst hd
              have hss : s' ≠ s := fun hss => hne ⟨rfl, hss⟩
              rw [lookup_session, alGet?_erase_self _ _ hWF.1, lookup_session, h2]
              simp only
              rw [hw]
              simp [alGet?, hss, Ne.symm hss]
            · rw [lookup_session, alGet?_erase_ne _ _ _ (fun x => hd x.symm),
                lookup_session]
          · intro _
            exact alGet?_erase_self _ _ hWF.1
        · simp only [he, Bool.false_eq_true, if_false]
          have hlen : (alErase inner s).length = inner.length - 1 := by
            rw [length_alErase]
            simp [hs]
          refine ⟨?_, ?_, ?_, ?_⟩
          · rw [lookup_session, alGet?_insert_self]
            simp only
            exact alGet?_erase_self _ _ hinner_nd
          · rw [get_active_session_count, alGet?_insert_self,
              get_active_session_count, h2]
            simpa using hlen
          · intro d' s' hne
            by_cases hd : d' = d
            · subst hd
              have hss : s' ≠ s := fun hss => hne ⟨rfl, hss⟩
              rw [lookup_session, alGet?_insert_self, lookup_session, h2]
              simp only
              rw [alGet?_erase_ne _ _ _ (Ne.symm hss)]
            · rw [lookup_session, alGet?_insert_ne _ _ _ _ (fun x => hd x.symm),
                lookup_session]
          · intro hcount
            rw [get_active_session_count, alGet?_insert_self] at hcount
            simp only [Option.getD_some] at hcount
            exact absurd (by simpa [List.isEmpty_iff, List.length_eq_zero] using hcount)
              (by simpa [List.isEmpty_iff] using he)

/-- Witness for C6: one registered session, then unregistered; the
hypothesis `WF` is discharged on the concrete state. -/
theorem unregister_removes_iff_present_witness :
    WF (run (DeviceRateLimiter.init 8) [Op.reg "d" "s" "u" 0 0]) ∧
    (unregister_session (run (DeviceRateLimiter.init 8) [Op.reg "d" "s" "u" 0 0])
        "d" "s").1 =
      (lookup_session (run (DeviceRateLimiter.init 8) [Op.reg "d" "s" "u" 0 0])
        "d" "s").isSome :=
  ⟨by decide,
   (unregister_removes_iff_present
      (run (DeviceRateLimiter.init 8) [Op.reg "d" "s" "u" 0 0]) "d" "s"
      (by decide)).1⟩

theorem alGet?_of_mem_nodup {β : Type} {m : List (String × β)} {k : String}
    {v : β} (hnd : (alKeys m).Nodup) (hmem : (k, v) ∈ m) :
    alGet? m k = some v := by
  induction m with
  | nil => simp at hmem
  | cons p t ih =>
    obtain ⟨k', v'⟩ := p
    simp only [alKeys, List.map_cons, List.nodup_cons] at hnd
    rcases List.mem_cons.mp hmem with h | h
    · obtain ⟨rfl, rfl⟩ := Prod.mk.injEq _ _ _ _ |>.mp h
      simp [alGet?]
    · by_cases hk : k' = k
      · subst hk
        have : k' ∈ alKeys t := by
          simpa [alKeys] using List.mem_map_of_mem Prod.fst h
        exact absurd this (by simpa [alKeys] using hnd.1)
      · simp only [alGet?_cons, hk, if_false]
        exact ih hnd.2 h

theorem sum_lengths_filter_nonempty {α β : Type} (l : List (α × List β)) :
    ((l.filter (fun e => ! e.2.isEmpty)).map (fun e => e.2.length)).sum =
      (l.map (fun e => e.2.length)).sum := by
  induction l with
  | nil => rfl
  | cons e t ih =>
    by_cases he : e.2.isEmpty
    · have h0 : e.2.length = 0 := by
        simpa [List.isEmpty_iff, List.length_eq_zero] using he
      simp [List.filter_cons, he, h0, ih]
    · simp [List.filter_cons, he, ih]

theorem sum_map_add {α : Type} (f g : α → Nat) (l : List α) :
    (l.map (fun e => f e + g e)).sum = (l.map f).sum + (l.map g).sum := by
  induction l with
  | nil => rfl
  | cons e t ih =>
    simp [ih]
    omega

/-- C5: `cleanup_stale_sessions` removes exactly the records whose idle time
strictly exceeds the threshold, leaves every other record unchanged, keeps
no empty device entry, returns the number of records removed, and when no
record is stale it returns 0 and mutates nothing. -/
theorem cleanup_removes_exactly_stale (st : DeviceRateLimiter) (now mi : Int)
    (hWF : WF st) :
    (∀ d s, lookup_session (cleanup_stale_sessions st now mi).2 d s =
      match lookup_session st d s with
      | none => none
      | some info =>
        if now - info.last_activity > mi then none else some info) ∧
    (∀ d inner,
      alGet? (cleanup_stale_sessions st now mi).2.active_sessions d =
        some inner → inner ≠ []) ∧
    ((cleanup_stale_sessions st now mi).1 =
      totalSessions st - totalSessions (cleanup_stale_sessions st now mi).2) ∧
    ((∀ d s info, lookup_session st d s = some info →
        now - info.last_activity ≤ mi) →
      cleanup_stale_sessions st now mi = (0, st)) := by
  obtain ⟨ha, hhtp, hmax⟩ := cleanup_snd st now mi
  have houter_nd : (alKeys ((st.active_sessions.map
      (fun e => (e.1, e.2.filter (fun p => ! is_stale now mi p)))))).Nodup := by
    rw [alKeys_map_values]
    exact hWF.1
  refine ⟨?_, ?_, ?_, ?_⟩
  · intro d s
    rw [lookup_session, ha, alGet?_filter_of_nodup _ _ _ houter_nd,
      alGet?_map_values]
    rcases h2 : alGet? st.active_sessions d with _ | inner
    · simp [lookup_session, h2]
    · have hinner_nd : (alKeys inner).Nodup :=
        (hWF.2.1 _ (mem_of_alGet?_eq_some h2)).1
      rw [lookup_session, h2]
      simp only [Option.map_some']
      by_cases hk : (! (inner.filter (fun p => ! is_stale now mi p)).isEmpty) = true
      · rw [if_pos hk]
        simp only
        rw [alGet?_filter_of_nodup _ _ _ hinner_nd]
        rcases h3 : alGet? inner s with _ | info
        · simp
        · simp only
          by_cases hstale : is_stale now mi (s, info) = true
          · have hgt : now - info.last_activity > mi := by
              simpa [is_stale] using hstale
            simp [hstale, hgt]
          · have hle : ¬ now - info.last_activity > mi := by
              simpa [is_stale] using hstale
            simp [hstale, hle]
      · rw [if_neg hk]
        simp only
        rcases h3 : alGet? inner s with _ | info
        · simp
        · have hmem : (s, info) ∈ inner := mem_of_alGet?_eq_some h3
          have hempty : inner.filter (fun p => ! is_stale now mi p) = [] := by
            simpa [List.isEmpty_iff] using hk
          have hstale : is_stale now mi (s, info) = true := by
            by_contra hq
            have : (s, info) ∈ inner.filter (fun p => ! is_stale now mi p) :=
              List.mem_filter.mpr ⟨hmem, by simp [hq]⟩
            rw [hempty] at this
            simp at this
          have hgt : now - info.last_activity > mi := by
            simpa [is_stale] using hstale
          simp [hgt]
  · intro d inner h
    have hmem := mem_of_alGet?_eq_some h
    rw [ha] at hmem
    have hkeep := List.of_mem_filter hmem
    simpa [List.isEmpty_iff] using hkeep
  · have hpost : totalSessions (cleanup_stale_sessions st now mi).2 =
        (st.active_sessions.map
          (fun e => (e.2.filter (fun p => ! is_stale now mi p)).length)).sum := by
      rw [totalSessions, ha, sum_lengths_filter_nonempty, List.map_map]
      refine congrArg List.sum (List.map_congr_left ?_)
      intro e _
      rfl
    have hsplit : (st.active_sessions.map
        (fun e => (e.2.filter (is_stale now mi)).length)).sum +
        (st.active_sessions.map
          (fun e => (e.2.filter (fun p => ! is_stale now mi p)).length)).sum =
        (st.active_sessions.map (fun e => e.2.length)).sum := by
      rw [← sum_map_add]
      refine congrArg List.sum (List.map_congr_left ?_)
      intro e _
      exact filter_length_add (is_stale now mi) e.2
    rw [cleanup_fst, hpost, totalSessions]
    omega
  · intro hnone
    have hkeepall : ∀ e ∈ st.active_sessions,
        e.2.filter (fun p => ! is_stale now mi p) = e.2 := by
      intro e he
      refine List.filter_eq_self.mpr ?_
      intro p hp
      have hget_outer : alGet? st.active_sessions e.1 = some e.2 :=
        alGet?_of_mem_nodup hWF.1 (by simpa using he)
      have hget_inner : alGet? e.2 p.1 = some p.2 :=
        alGet?_of_mem_nodup (hWF.2.1 _ he).1 (by simpa using hp)
      have hlook : lookup_session st e.1 p.1 = some p.2 := by
        rw [lookup_session, hget_outer]
        exact hget_inner
      have hle := hnone _ _ _ hlook
      simp [is_stale, not_lt.mpr hle]
    have hmapid : st.active_sessions.map
        (fun e => (e.1, e.2.filter (fun p => ! is_stale now mi p))) =
        st.active_sessions := by
      have : ∀ e ∈ st.active_sessions,
          (e.1, e.2.filter (fun p => ! is_stale now mi p)) = e := by
        intro e he
        rw [hkeepall e he]
      exact (List.map_congr_left this).trans (by simp)
    have hfilterid : st.active_sessions.filter (fun e => ! e.2.isEmpty) =
        st.active_sessions := by
      refine List.filter_eq_self.mpr ?_
      intro e he
      have := (hWF.2.1 e he).2
      simpa [List.isEmpty_iff] using this
    have h1 : (cleanup_stale_sessions st now mi).1 = 0 := by
      rw [cleanup_fst]
      have : ∀ e ∈ st.active_sessions,
          (e.2.filter (is_stale now mi)).length = 0 := by
        intro e he
        have := congrArg List.length (hkeepall e he)
        have hadd := filter_length_add (is_stale now mi) e.2
        rw [this] at hadd
        omega
      rw [List.map_congr_left this]
      simp
    have h2 : (cleanup_stale_sessions st now mi).2 = st := by
      ext1
      · exact hmax
      · rw [ha, hmapid, hfilterid]
      · exact hhtp
      · rfl
    exact Prod.ext_iff.mpr ⟨h1, h2⟩

/-- Witness for C5: a two-session state swept at a time when exactly one
session is stale; `WF` is discharged on the concrete state. -/
theorem cleanup_removes_exactly_stale_witness :
    WF (run (DeviceRateLimiter.init 8)
        [Op.reg "d" "s1" "u" 0 0, Op.reg "d" "s2" "u" 5000 5000]) ∧
    (cleanup_stale_sessions
        (run (DeviceRateLimiter.init 8)
          [Op.reg "d" "s1" "u" 0 0, Op.reg "d" "s2" "u" 5000 5000]) 5000 3600).1 =
      totalSessions (run (DeviceRateLimiter.init 8)
          [Op.reg "d" "s1" "u" 0 0, Op.reg "d" "s2" "u" 5000 5000]) -
        totalSessions (cleanup_stale_sessions
          (run (DeviceRateLimiter.init 8)
            [Op.reg "d" "s1" "u" 0 0, Op.reg "d" "s2" "u" 5000 5000]) 5000 3600).2 :=
  ⟨by decide,
   (cleanup_removes_exactly_stale
      (run (DeviceRateLimiter.init 8)
        [Op.reg "d" "s1" "u" 0 0, Op.reg "d" "s2" "u" 5000 5000]) 5000 3600
      (by decide)).2.2.1⟩

/-! ### Sliding-window run machinery -/

/-- A sequence of `check_http_rate_limit` calls for one device at given
times, collecting the returned booleans. -/
def runHttp (cap : Nat) (st : DeviceRateLimiter) (d : String) :
    List Int → List Bool × DeviceRateLimiter
  | [] => ([], st)
  | t :: ts =>
    let r1 := check_http_rate_limit_with cap st d t
    let r2 := runHttp cap r1.2 d ts
    (r1.1 :: r2.1, r2.2)

theorem http_step_admit (cap : Nat) (st : DeviceRateLimiter) (d : String)
    (l : List Int) (t : Int) (hl : httpList st d = l)
    (hprune : ∀ x ∈ l, t - 60 < x) (hlen : l.length < cap) :
    (check_http_rate_limit_with cap st d t).1 = true ∧
    httpList (check_http_rate_limit_with cap st d t).2 d = l ++ [t] := by
  have hkeep : l.filter (fun ts => decide (t - 60 < ts)) = l := by
    refine List.filter_eq_self.mpr ?_
    intro x hx
    simpa using hprune x hx
  rw [check_http_eq]
  simp only [hl, hkeep]
  rw [if_neg (by omega)]
  exact ⟨rfl, by simp [httpList, alGet?_insert_self]⟩

theorem http_step_reject (cap : Nat) (st : DeviceRateLimiter) (d : String)
    (l : List Int) (t : Int) (hl : httpList st d = l)
    (hprune : ∀ x ∈ l, t - 60 < x) (hlen : l.length ≥ cap) :
    (check_http_rate_limit_with cap st d t).1 = false ∧
    httpList (check_http_rate_limit_with cap st d t).2 d = l := by
  have hkeep : l.filter (fun ts => decide (t - 60 < ts)) = l := by
    refine List.filter_eq_self.mpr ?_
    intro x hx
    simpa using hprune x hx
  rw [check_http_eq]
  simp only [hl, hkeep]
  rw [if_pos (by omega)]
  exact ⟨rfl, by simp [httpList, alGet?_insert_self]⟩

theorem http_step_reset (cap : Nat) (st : DeviceRateLimiter) (d : String)
    (l : List Int) (t : Int) (hl : httpList st d = l)
    (hdrop : ∀ x ∈ l, x ≤ t - 60) (hcap : 0 < cap) :
    (check_http_rate_limit_with cap st d t).1 = true ∧
    httpList (check_http_rate_limit_with cap st d t).2 d = [t] := by
  have hkeep : l.filter (fun ts => decide (t - 60 < ts)) = [] := by
    refine List.filter_eq_nil_iff.mpr ?_
    intro x hx
    have := hdrop x hx
    simp
    omega
  rw [check_http_eq]
  simp only [hl, hkeep]
  rw [if_neg (by simp; omega)]
  exact ⟨rfl, by simp [httpList, alGet?_insert_self]⟩

theorem runHttp_all_admitted (cap : Nat) (d : String) (a : Int) :
    ∀ (ts : List Int) (st : DeviceRateLimiter) (l : List Int),
      httpList st d = l → (∀ x ∈ l, a ≤ x ∧ x < a + 60) →
      (∀ t ∈ ts, a ≤ t ∧ t < a + 60) →
      l.length + ts.length ≤ cap →
      (runHttp cap st d ts).1 = List.replicate ts.length true ∧
      httpList (runHttp cap st d ts).2 d = l ++ ts := by
  intro ts
  induction ts with
  | nil =>
    intro st l hl _ _ _
    simp [runHttp, hl]
  | cons t rest ih =>
    intro st l hl hlwin htwin hlen
    have htw := htwin t (List.mem_cons_self _ _)
    have hstep := http_step_admit cap st d l t hl
      (fun x hx => by have := hlwin x hx; omega)
      (by simp at hlen; omega)
    have hlwin' : ∀ x ∈ l ++ [t], a ≤ x ∧ x < a + 60 := by
      intro x hx
      rcases List.mem_append.mp hx with hx | hx
      · exact hlwin x hx
      · simp at hx
        subst hx
        exact htw
    have htwin' : ∀ u ∈ rest, a ≤ u ∧ u < a + 60 :=
      fun u hu => htwin u (List.mem_cons_of_mem _ hu)
    have hlen' : (l ++ [t]).length + rest.length ≤ cap := by
      simp at hlen ⊢
      omega
    have hrest := ih (check_http_rate_limit_with cap st d t).2 (l ++ [t])
      hstep.2 hlwin' htwin' hlen'
    refine ⟨?_, ?_⟩
    · show ((check_http_rate_limit_with cap st d t).1 ::
        (runHttp cap (check_http_rate_limit_with cap st d t).2 d rest).1) = _
      rw [hstep.1, hrest.1]
      simp [List.replicate_succ]
    · show httpList (runHttp cap (check_http_rate_limit_with cap st d t).2 d rest).2 d = _
      rw [hrest.2]
      simp

/-- C3: `check_http_rate_limit` prunes to timestamps strictly within the
trailing 60-unit window, rejects without appending when the pruned length
reaches the capacity, and otherwise appends the current time and admits;
consequently `cap` calls within one window are all admitted, the next call
in the window is rejected, and a later call past the window is admitted
again. -/
theorem sliding_window_rate_limit (cap maxs : Nat) (hcap : 0 < cap)
    (d : String) (a : Int) (ts : List Int) (hlen : ts.length = cap)
    (hwin : ∀ t ∈ ts, a ≤ t ∧ t < a + 60) (tn : Int) (htn1 : a ≤ tn)
    (htn2 : tn < a + 60) (t' : Int) (ht' : ∀ t ∈ ts, t + 60 ≤ t') :
    (∀ (st : DeviceRateLimiter) (t : Int),
      (check_http_rate_limit_with cap st d t).1 =
        decide (((httpList st d).filter (fun x => decide (t - 60 < x))).length < cap) ∧
      httpList (check_http_rate_limit_with cap st d t).2 d =
        (if ((httpList st d).filter (fun x => decide (t - 60 < x))).length < cap
         then (httpList st d).filter (fun x => decide (t - 60 < x)) ++ [t]
         else (httpList st d).filter (fun x => decide (t - 60 < x)))) ∧
    (runHttp cap (DeviceRateLimiter.init maxs) d ts).1 =
      List.replicate cap true ∧
    (check_http_rate_limit_with cap
      (runHttp cap (DeviceRateLimiter.init maxs) d ts).2 d tn).1 = false ∧
    (check_http_rate_limit_with cap
      (check_http_rate_limit_with cap
        (runHttp cap (DeviceRateLimiter.init maxs) d ts).2 d tn).2 d t').1 =
      true := by
  have hrun := runHttp_all_admitted cap d a ts (DeviceRateLimiter.init maxs) []
    rfl (by intro x hx; simp at hx) hwin (by simp [hlen])
  have hfail := http_step_reject cap
    (runHttp cap (DeviceRateLimiter.init maxs) d ts).2 d ts tn
    (by simpa using hrun.2)
    (fun x hx => by have := hwin x hx; omega)
    (by simp [hlen])
  have hreset := http_step_reset cap
    (check_http_rate_limit_with cap
      (runHttp cap (DeviceRateLimiter.init maxs) d ts).2 d tn).2 d ts t'
    hfail.2
    (fun x hx => by have := ht' x hx; omega)
    hcap
  refine ⟨?_, by simpa [hlen] using hrun.1, hfail.1, hreset.1⟩
  intro st t
  rw [check_http_eq2]
  by_cases h : ((httpList st d).filter (fun x => decide (t - 60 < x))).length ≥ cap
  · rw [if_pos h]
    have hnlt : ¬ ((httpList st d).filter
        (fun x => decide (t - 60 < x))).length < cap := by omega
    refine ⟨by simp [hnlt], ?_⟩
    rw [if_neg hnlt, httpList_reject_state]
  · rw [if_neg h]
    have hlt : ((httpList st d).filter
        (fun x => decide (t - 60 < x))).length < cap := by omega
    refine ⟨by simp [hlt], ?_⟩
    rw [if_pos hlt, httpList_admit_state]

/-- Witness for C3: capacity 3, calls at times 0, 1, 2 admitted, at 3
rejected, at 100 admitted again. -/
theorem sliding_window_rate_limit_witness :
    (runHttp 3 (DeviceRateLimiter.init 8) "d" [0, 1, 2]).1 =
      List.replicate 3 true ∧
    (check_http_rate_limit_with 3
      (runHttp 3 (DeviceRateLimiter.init 8) "d" [0, 1, 2]).2 "d" 3).1 = false ∧
    (check_http_rate_limit_with 3
      (check_http_rate_limit_with 3
        (runHttp 3 (DeviceRateLimiter.init 8) "d" [0, 1, 2]).2 "d" 3).2 "d" 100).1 =
      true := by
  have h := sliding_window_rate_limit 3 8 (by decide) "d" 0 [0, 1, 2] (by decide)
    (by decide) 3 (by decide) (by decide) 100 (by decide)
  exact ⟨h.2.1, h.2.2.1, h.2.2.2⟩

/-- C8: client address extraction prefers, in order, the first
comma-separated entry of `x-forwarded-for` (trimmed), then `x-real-ip`
(trimmed), then the transport peer address, then the literal `"unknown"`;
hence the forwarded-for value `"1.2.3.4, 5.6.6.7"` yields the same device
key as the bare address `"1.2.3.4"`. -/
theorem client_ip_preference_order :
    (∀ (hs : Headers) (client : Option String),
      truthyS hs.x_forwarded_for = true →
      get_client_ip hs client =
        pyStrip ((pySplitComma (hs.x_forwarded_for.getD "")).headD "")) ∧
    (∀ (hs : Headers) (client : Option String),
      truthyS hs.x_forwarded_for = false → truthyS hs.x_real_ip = true →
      get_client_ip hs client = pyStrip (hs.x_real_ip.getD "")) ∧
    (∀ (hs : Headers) (host : String),
      truthyS hs.x_forwarded_for = false → truthyS hs.x_real_ip = false →
      get_client_ip hs (some host) = host) ∧
    (∀ hs : Headers,
      truthyS hs.x_forwarded_for = false → truthyS hs.x_real_ip = false →
      get_client_ip hs none = "unknown") ∧
    (∀ (realip ua client uaArg cid : Option String),
      generate_device_fingerprint
          (get_client_ip ⟨some "1.2.3.4, 5.6.6.7", realip, ua⟩ client) uaArg cid =
        generate_device_fingerprint "1.2.3.4" uaArg cid) := by
  refine ⟨?_, ?_, ?_, ?_, ?_⟩
  · intro hs client h
    rw [get_client_ip.eq_def, if_pos h]
  · intro hs client h1 h2
    rw [get_client_ip.eq_def, if_neg (by simp [h1]), if_pos h2]
  · intro hs host h1 h2
    rw [get_client_ip.eq_def, if_neg (by simp [h1]), if_neg (by simp [h2])]
  · intro hs h1 h2
    rw [get_client_ip.eq_def, if_neg (by simp [h1]), if_neg (by simp [h2])]
  · intro realip ua client uaArg cid
    have hip : get_client_ip ⟨some "1.2.3.4, 5.6.6.7", realip, ua⟩ client =
        "1.2.3.4" := by
      have hx : (⟨some "1.2.3.4, 5.6.6.7", realip, ua⟩ : Headers).x_forwarded_for =
          some "1.2.3.4, 5.6.6.7" := rfl
      rw [get_client_ip.eq_def, hx, if_pos (by decide)]
      decide
    rw [hip]

/-- Witness for C8: the preference chain at concrete headers. -/
theorem client_ip_preference_order_witness :
    get_client_ip ⟨some "1.2.3.4, 5.6.6.7", none, none⟩ none =
      pyStrip ((pySplitComma ((some "1.2.3.4, 5.6.6.7").getD "")).headD "") ∧
    get_client_ip ⟨none, some " 9.9.9.9 ", none⟩ none =
      pyStrip ((some " 9.9.9.9 ").getD "") ∧
    get_client_ip ⟨none, none, none⟩ (some "7.7.7.7") = "7.7.7.7" ∧
    get_client_ip ⟨none, none, none⟩ none = "unknown" ∧
    generate_device_fingerprint
        (get_client_ip ⟨some "1.2.3.4, 5.6.6.7", none, none⟩ none)
        (some "UA") none =
      generate_device_fingerprint "1.2.3.4" (some "UA") none :=
  ⟨client_ip_preference_order.1 ⟨some "1.2.3.4, 5.6.6.7", none, none⟩ none
      (by decide),
   client_ip_preference_order.2.1 ⟨none, some " 9.9.9.9 ", none⟩ none
      (by decide) (by decide),
   client_ip_preference_order.2.2.1 ⟨none, none, none⟩ "7.7.7.7"
      (by decide) (by decide),
   client_ip_preference_order.2.2.2.1 ⟨none, none, none⟩ (by decide) (by decide),
   client_ip_preference_order.2.2.2.2 none none none (some "UA") none⟩

/-! ### Fingerprint structure lemmas -/

def isHexChar (c : Char) : Bool := ("0123456789abcdef").data.contains c

theorem length_toBytesBE (k n : Nat) : (toBytesBE k n).length = k := by
  induction k generalizing n with
  | zero => rfl
  | succ k ih => simp [toBytesBE, ih]

theorem mem_toBytesBE_lt (k n : Nat) : ∀ b ∈ toBytesBE k n, b < 256 := by
  induction k generalizing n with
  | zero => simp [toBytesBE]
  | succ k ih =>
    intro b hb
    rcases List.mem_cons.mp hb with h | h
    · subst h
      exact Nat.mod_lt _ (by omega)
    · exact ih n b h

theorem sha256_length (msg : List Nat) : (sha256 msg).length = 32 := by
  rw [sha256, hash8Bytes]
  simp [length_toBytesBE]

theorem sha256_bytes_lt (msg : List Nat) : ∀ b ∈ sha256 msg, b < 256 := by
  intro b hb
  rw [sha256, hash8Bytes] at hb
  simp only [List.mem_append] at hb
  rcases hb with ((((((h | h) | h) | h) | h) | h) | h) | h <;>
    exact mem_toBytesBE_lt _ _ b h

theorem hexDigitChar_isHex (n : Nat) (h : n < 16) :
    isHexChar (hexDigitChar n) = true := by
  interval_cases n <;> decide

theorem length_bytesToHexChars (bs : List Nat) :
    (bytesToHexChars bs).length = 2 * bs.length := by
  induction bs with
  | nil => rfl
  | cons b t ih =>
    show (byteToHexChars b ++ bytesToHexChars t).length = _
    simp [byteToHexChars, ih]
    omega

theorem mem_bytesToHexChars (bs : List Nat) (hb : ∀ b ∈ bs, b < 256) :
    ∀ c ∈ bytesToHexChars bs, isHexChar c = true := by
  induction bs with
  | nil => simp [bytesToHexChars]
  | cons b t ih =>
    intro c hc
    have hb0 : b < 256 := hb b (List.mem_cons_self _ _)
    have hc2 : c ∈ byteToHexChars b ++ bytesToHexChars t := hc
    rcases List.mem_append.mp hc2 with h | h
    · simp only [byteToHexChars, List.mem_cons, List.not_mem_nil, or_false] at h
      rcases h with h | h
      · subst h
        exact hexDigitChar_isHex _ (by omega)
      · subst h
        exact hexDigitChar_isHex _ (Nat.mod_lt _ (by omega))
    · exact ih (fun x hx => hb x (List.mem_cons_of_mem _ hx)) c h

theorem length_mk (l : List Char) : (String.mk l).length = l.length := rfl

theorem sha256Hex_take32_length (s : String) :
    ((sha256HexChars s).take 32).length = 32 := by
  rw [List.length_take, sha256HexChars, length_bytesToHexChars, sha256_length]
  rfl

theorem sha256Hex_take32_hex (s : String) :
    ∀ c ∈ (sha256HexChars s).take 32, isHexChar c = true := by
  intro c hc
  have hc3 := List.take_subset _ _ hc
  rw [sha256HexChars] at hc3
  exact mem_bytesToHexChars _ (sha256_bytes_lt _) c hc3

/-- Reference derivation following the spec's words (§4.1): trim and
lowercase the address; trim the agent string, defaulting to the literal
`"unknown"` when it is absent or empty; join
`[address, agent, customId-if-present]` in that order with the `"|"`
delimiter (a custom id counts as present when supplied non-empty, the same
absent/empty treatment the spec gives the agent); hash with SHA-256 and keep
the first 32 hexadecimal characters as the device key. -/
def derive_spec (client_ip : String) (user_agent : Option String)
    (custom_id : Option String) : String :=
  let address := pyLower (pyStrip client_ip)
  let agent :=
    match user_agent with
    | none => "unknown"
    | some s => if s.data = [] then "unknown" else pyStrip s
  let components := [address, agent] ++
    (match custom_id with
     | none => []
     | some c => if c.data = [] then [] else [c])
  String.mk ((sha256HexChars (joinPipe components)).take 32)

/-- C4: the source fingerprint equals the spec's reference derivation, is
deterministic, and always yields exactly 32 hexadecimal characters. -/
theorem fingerprint_matches_reference :
    (∀ (ip : String) (ua cid : Option String),
      generate_device_fingerprint ip ua cid = derive_spec ip ua cid) ∧
    (∀ (ip ip2 : String) (ua ua2 cid cid2 : Option String),
      ip = ip2 → ua = ua2 → cid = cid2 →
      generate_device_fingerprint ip ua cid =
        generate_device_fingerprint ip2 ua2 cid2) ∧
    (∀ (ip : String) (ua cid : Option String),
      (generate_device_fingerprint ip ua cid).length = 32 ∧
      ∀ c ∈ (generate_device_fingerprint ip ua cid).data,
        isHexChar c = true) := by
  refine ⟨?_, ?_, ?_⟩
  · intro ip ua cid
    rw [generate_device_fingerprint, derive_spec.eq_def]
    have hua : pyStrip (if truthyS ua then ua.getD "" else "unknown") =
        (match ua with
         | none => "unknown"
         | some s => if s.data = [] then "unknown" else pyStrip s) := by
      cases ua with
      | none => decide
      | some s =>
        show pyStrip (if truthyS (some s) = true then (some s).getD ""
            else "unknown") =
          if s.data = [] then "unknown" else pyStrip s
        by_cases hs : s.data = []
        · rw [if_pos hs, if_neg (by simp [truthyS, hs])]
          decide
        · rw [if_neg hs, if_pos (by simp [truthyS, hs])]
          rfl
    have hcid : (if truthyS cid then [cid.getD ""] else []) =
        (match cid with
         | none => ([] : List String)
         | some c => if c.data = [] then [] else [c]) := by
      cases cid with
      | none => rfl
      | some c =>
        show (if truthyS (some c) = true then [(some c).getD ""] else []) =
          if c.data = [] then [] else [c]
        by_cases hc : c.data = []
        · rw [if_pos hc, if_neg (by simp [truthyS, hc])]
        · rw [if_neg hc, if_pos (by simp [truthyS, hc])]
          rfl
    rw [hua, hcid]
  · intro ip ip2 ua ua2 cid cid2 h1 h2 h3
    subst h1
    subst h2
    subst h3
    rfl
  · intro ip ua cid
    constructor
    · show (String.mk ((sha256HexChars (joinPipe ([pyLower (pyStrip ip),
          pyStrip (if truthyS ua then ua.getD "" else "unknown")] ++
          (if truthyS cid then [cid.getD ""] else [])))).take 32)).length = 32
      rw [length_mk]
      exact sha256Hex_take32_length _
    · intro c hc
      have hc2 : c ∈ (sha256HexChars (joinPipe ([pyLower (pyStrip ip),
          pyStrip (if truthyS ua then ua.getD "" else "unknown")] ++
          (if truthyS cid then [cid.getD ""] else [])))).take 32 := hc
      exact sha256Hex_take32_hex _ c hc2

/-- Witness for C4 at a concrete input, with all definitions evaluated. -/
theorem fingerprint_matches_reference_witness :
    generate_device_fingerprint "1.2.3.4" (some "UA") none =
      derive_spec "1.2.3.4" (some "UA") none ∧
    (generate_device_fingerprint "1.2.3.4" (some "UA") none).length = 32 :=
  ⟨fingerprint_matches_reference.1 "1.2.3.4" (some "UA") none,
   (fingerprint_matches_reference.2.2 "1.2.3.4" (some "UA") none).1⟩

/-! ### Concurrency: the unguarded read-check-mutate sequence -/

/-- Two `register_session` calls for the same device with no mutual
exclusion, interleaved as check;check;insert;insert: each call's admission
read (`can_create_session`) happens before either call's dict insert, which
nothing in the source prevents since the only concurrency artefact is the
unused `_lock_placeholder = None`. -/
def interleaved_two_registers (st : DeviceRateLimiter) (d s1 s2 u : String)
    (t : Int) : Bool × Bool × DeviceRateLimiter :=
  let ok1 := can_create_session st d
  let ok2 := can_create_session st d
  let st1 := if ok1 then register_insert st d s1 u t t else st
  let st2 := if ok2 then register_insert st1 d s2 u t t else st1
  (ok1, ok2, st2)

/-- C2: the source holds no lock — `lock_placeholder` is `none` and no
operation reads it — so `register_session` decomposes into an unguarded
admission read followed by the insert; interleaving two calls for one
device at `max_sessions = 1` lets both reads see an admissible state, both
calls succeed, and the resulting count is 2 > 1, breaching the cap the
claimed mutual-exclusion guard is supposed to protect. -/
theorem no_lock_interleaving_breaches_cap :
    (∀ (st : DeviceRateLimiter) (d s u : String) (tc ta : Int),
      register_session st d s u tc ta =
        if can_create_session st d then (true, register_insert st d s u tc ta)
        else (false, st)) ∧
    (DeviceRateLimiter.init 1).lock_placeholder = none ∧
    (interleaved_two_registers (DeviceRateLimiter.init 1)
      "d" "s1" "s2" "u" 0).1 = true ∧
    (interleaved_two_registers (DeviceRateLimiter.init 1)
      "d" "s1" "s2" "u" 0).2.1 = true ∧
    get_active_session_count
      (interleaved_two_registers (DeviceRateLimiter.init 1)
        "d" "s1" "s2" "u" 0).2.2 "d" = 2 ∧
    (DeviceRateLimiter.init 1).max_sessions = 1 :=
  ⟨register_session_eq, rfl, by decide, by decide, by decide, rfl⟩

/-! ### Resource bounds -/

theorem isSome_alGet?_insert {β : Type} (m : List (String × β)) (k : String)
    (v : β) (d : String) (h : (alGet? (alInsert m k v) d).isSome) :
    (alGet? m d).isSome ∨ d = k := by
  by_cases hd : d = k
  · exact Or.inr hd
  · rw [alGet?_insert_ne _ _ _ _ (fun hh => hd hh.symm)] at h
    exact Or.inl h

theorem isSome_of_sublist {β : Type} {m' m : List (String × β)}
    (hsub : m'.Sublist m) (d : String) (h : (alGet? m' d).isSome) :
    (alGet? m d).isSome := by
  rw [← mem_alKeys_iff] at h ⊢
  exact (alKeys_sublist hsub).subset h

/-- Device keys present after one operation were present before or belong to
the operation. -/
theorem keys_applyOp (st : DeviceRateLimiter) (op : Op) (d : String) :
    ((alGet? (applyOp st op).active_sessions d).isSome →
      (alGet? st.active_sessions d).isSome ∨ op.device = some d) ∧
    ((alGet? (applyOp st op).http_requests d).isSome →
      (alGet? st.http_requests d).isSome ∨ op.device = some d) := by
  cases op with
  | reg d0 s u tc ta =>
    constructor
    · intro h
      by_cases hc : can_create_session st d0
      · rw [show (applyOp st (Op.reg d0 s u tc ta)).active_sessions =
            alInsert st.active_sessions d0
              (alInsert ((alGet? st.active_sessions d0).getD []) s
                ⟨s, u, tc, ta⟩) from register_active_of_can s u tc ta hc] at h
        rcases isSome_alGet?_insert _ _ _ _ h with h | h
        · exact Or.inl h
        · exact Or.inr (by simp [Op.device, h])
      · rw [show (applyOp st (Op.reg d0 s u tc ta)).active_sessions =
            st.active_sessions by
              show (register_session st d0 s u tc ta).2.active_sessions = _
              rw [register_fail s u tc ta hc]] at h
        exact Or.inl h
    · intro h
      rw [show (applyOp st (Op.reg d0 s u tc ta)).http_requests =
          st.http_requests from (register_untouched st d0 s u tc ta).1] at h
      exact Or.inl h
  | unreg d0 s =>
    constructor
    · intro h
      show (alGet? st.active_sessions d).isSome ∨ some d0 = some d
      rcases hl : lookup_session st d0 s with _ | v
      · rw [show (applyOp st (Op.unreg d0 s)).active_sessions =
            st.active_sessions by
              show (unregister_session st d0 s).2.active_sessions = _
              rw [unreg_not_found st d0 s hl]] at h
        exact Or.inl h
      · rw [lookup_session] at hl
        rcases h2 : alGet? st.active_sessions d0 with _ | inner
        · rw [h2] at hl
          simp at hl
        · rw [h2] at hl
          simp only at hl
          have hs : (alGet? inner s).isSome := by simp [hl]
          have hsnd := unreg_snd_found st d0 s inner h2 hs
          rw [show (applyOp st (Op.unreg d0 s)).active_sessions =
              (unregister_rest st d0 (alErase inner s)).active_sessions by
                show (unregister_session st d0 s).2.active_sessions = _
                rw [hsnd]] at h
          unfold unregister_rest at h
          by_cases he : (alErase inner s).isEmpty
          · simp only [he, if_true] at h
            exact Or.inl (isSome_of_sublist (alErase_sublist _ _) d h)
          · simp only [he, Bool.false_eq_true, if_false] at h
            rcases isSome_alGet?_insert _ _ _ _ h with h | h
            · exact Or.inl h
            · subst h
              rw [h2]
              exact Or.inl (by simp)
    · intro h
      rw [show (applyOp st (Op.unreg d0 s)).http_requests = st.http_requests
          from (by
            show (unregister_session st d0 s).2.http_requests = _
            rw [unregister_session_eq]
            rcases alGet? st.active_sessions d0 with _ | inner
            · rfl
            · by_cases hc : alContains inner s = true
              · simp only [hc, if_true]
                exact (unregister_rest_untouched st d0 _).1
              · simp [hc])] at h
      exact Or.inl h
  | http d0 now =>
    constructor
    · intro h
      rw [show (applyOp st (Op.http d0 now)).active_sessions =
          st.active_sessions from
            (check_http_active MAX_HTTP_REQUESTS_PER_MINUTE st d0 now).1] at h
      exact Or.inl h
    · intro h
      show (alGet? st.http_requests d).isSome ∨ some d0 = some d
      have hcheck : (applyOp st (Op.http d0 now)).http_requests =
          (check_http_rate_limit_with MAX_HTTP_REQUESTS_PER_MINUTE
            st d0 now).2.http_requests := rfl
      rw [hcheck, check_http_eq2] at h
      by_cases hb : (((httpList st d0).filter
          (fun ts => decide (now - 60 < ts))).length ≥ MAX_HTTP_REQUESTS_PER_MINUTE)
      · rw [if_pos hb] at h
        simp only [http_reject_state] at h
        rcases isSome_alGet?_insert _ _ _ _ h with h | h
        · exact Or.inl h
        · exact Or.inr (by rw [h])
      · rw [if_neg hb] at h
        simp only [http_admit_state] at h
        rcases isSome_alGet?_insert _ _ _ _ h with h | h
        · rcases isSome_alGet?_insert _ _ _ _ h with h | h
          · exact Or.inl h
          · exact Or.inr (by rw [h])
        · exact Or.inr (by rw [h])
  | cleanup now mi =>
    constructor
    · intro h
      obtain ⟨ha, _, _⟩ := cleanup_snd st now mi
      rw [show (applyOp st (Op.cleanup now mi)).active_sessions =
          (cleanup_stale_sessions st now mi).2.active_sessions from rfl, ha] at h
      rw [← mem_alKeys_iff] at h ⊢
      have h2 := (alKeys_sublist (List.filter_sublist _)).subset h
      rw [alKeys_map_values] at h2
      exact Or.inl h2
    · intro h
      rw [show (applyOp st (Op.cleanup now mi)).http_requests =
          st.http_requests from (cleanup_snd st now mi).2.1] at h
      exact Or.inl h

/-- Per-device window lists never grow past the capacity. -/
theorem httpLen_check (cap : Nat) (st : DeviceRateLimiter) (d0 : String)
    (now : Int)
    (h : ∀ d l, alGet? st.http_requests d = some l → l.length ≤ cap) :
    ∀ d l, alGet? (check_http_rate_limit_with cap st d0 now).2.http_requests d =
      some l → l.length ≤ cap := by
  intro d l hl
  have hpr : ((httpList st d0).filter
      (fun ts => decide (now - 60 < ts))).length ≤ cap := by
    rcases h0 : alGet? st.http_requests d0 with _ | l0
    · rw [httpList, h0]
      simp
    · rw [httpList, h0]
      exact (List.length_filter_le _ _).trans (h d0 l0 h0)
  rw [check_http_eq2] at hl
  by_cases hb : (((httpList st d0).filter
      (fun ts => decide (now - 60 < ts))).length ≥ cap)
  · rw [if_pos hb] at hl
    simp only [http_reject_state] at hl
    by_cases hd : d = d0
    · subst hd
      rw [alGet?_insert_self] at hl
      cases hl
      exact hpr
    · rw [alGet?_insert_ne _ _ _ _ (fun hh => hd hh.symm)] at hl
      exact h d l hl
  · rw [if_neg hb] at hl
    simp only [http_admit_state] at hl
    by_cases hd : d = d0
    · subst hd
      rw [alGet?_insert_self] at hl
      cases hl
      simp only [List.length_append, List.length_singleton]
      omega
    · rw [alGet?_insert_ne _ _ _ _ (fun hh => hd hh.symm),
        alGet?_insert_ne _ _ _ _ (fun hh => hd hh.symm)] at hl
      exact h d l hl

theorem httpLen_applyOp (st : DeviceRateLimiter) (op : Op)
    (h : ∀ d l, alGet? st.http_requests d = some l →
      l.length ≤ MAX_HTTP_REQUESTS_PER_MINUTE) :
    ∀ d l, alGet? (applyOp st op).http_requests d = some l →
      l.length ≤ MAX_HTTP_REQUESTS_PER_MINUTE := by
  cases op with
  | reg d0 s u tc ta =>
    intro d l hl
    have hl2 : alGet? (register_session st d0 s u tc ta).2.http_requests d =
      some l := hl
    rw [(register_untouched st d0 s u tc ta).1] at hl2
    exact h d l hl2
  | unreg d0 s =>
    intro d l hl
    rw [show (applyOp st (Op.unreg d0 s)).http_requests = st.http_requests
        from (by
          show (unregister_session st d0 s).2.http_requests = _
          rw [unregister_session_eq]
          rcases alGet? st.active_sessions d0 with _ | inner
          · rfl
          · by_cases hc : alContains inner s = true
            · simp only [hc, if_true]
              exact (unregister_rest_untouched st d0 _).1
            · simp [hc])] at hl
    exact h d l hl
  | http d0 now => exact httpLen_check MAX_HTTP_REQUESTS_PER_MINUTE st d0 now h
  | cleanup now mi =>
    intro d l hl
    have hl2 : alGet? (cleanup_stale_sessions st now mi).2.http_requests d =
      some l := hl
    rw [(cleanup_snd st now mi).2.1] at hl2
    exact h d l hl2

theorem keys_run (ops : List Op) :
    ∀ (st : DeviceRateLimiter) (d : String),
      (((alGet? (run st ops).active_sessions d).isSome = true ∨
        (alGet? (run st ops).http_requests d).isSome = true) →
      ((alGet? st.active_sessions d).isSome = true ∨
        (alGet? st.http_requests d).isSome = true) ∨
        some d ∈ ops.map Op.device) := by
  induction ops with
  | nil =>
    intro st d h
    exact Or.inl h
  | cons op rest ih =>
    intro st d h
    rcases ih (applyOp st op) d h with h2 | h2
    · rcases h2 with h2 | h2
      · rcases (keys_applyOp st op d).1 h2 with h3 | h3
        · exact Or.inl (Or.inl h3)
        · exact Or.inr (by simp [h3])
      · rcases (keys_applyOp st op d).2 h2 with h3 | h3
        · exact Or.inl (Or.inr h3)
        · exact Or.inr (by simp [h3])
    · exact Or.inr (List.mem_cons_of_mem _ h2)

theorem httpLen_run (ops : List Op) :
    ∀ st : DeviceRateLimiter,
      (∀ d l, alGet? st.http_requests d = some l →
        l.length ≤ MAX_HTTP_REQUESTS_PER_MINUTE) →
      ∀ d l, alGet? (run st ops).http_requests d = some l →
        l.length ≤ MAX_HTTP_REQUESTS_PER_MINUTE := by
  induction ops with
  | nil => exact fun st h => h
  | cons op rest ih => exact fun st h => ih (applyOp st op) (httpLen_applyOp st op h)

/-- C9 counterexample: device `"d"` makes one HTTP request at time 0; a
reclamation sweep at time 1000000 — far past the 3600-second idle horizon —
still leaves the device's window entry (with its stale timestamp) in
storage: per-device state persists for a device not seen within the reclaim
horizon, because `cleanup_stale_sessions` never touches `_http_requests`
and pruning happens only on that device's own next call. -/
theorem http_state_survives_reclaim_horizon :
    alGet? (cleanup_stale_sessions
        (run (DeviceRateLimiter.init 8) [Op.http "d" 0]) 1000000 3600).2.http_requests
      "d" = some [0] ∧
    (cleanup_stale_sessions
        (run (DeviceRateLimiter.init 8) [Op.http "d" 0]) 1000000 3600).2.http_requests
      ≠ [] :=
  ⟨by decide, by decide⟩

/-- C9 amended: state is bounded per device by the cap and the window
capacity, and only devices named by some operation ever occupy an entry —
a bound of (devices ever seen) × (`max_sessions` + window capacity), not of
devices seen within the idle-reclaim horizon. -/
theorem state_bounded_by_devices_ever_seen (maxs : Nat) (ops : List Op) :
    (∀ d, get_active_session_count (run (DeviceRateLimiter.init maxs) ops) d ≤
      maxs) ∧
    (∀ d l, alGet? (run (DeviceRateLimiter.init maxs) ops).http_requests d =
      some l → l.length ≤ MAX_HTTP_REQUESTS_PER_MINUTE) ∧
    (∀ d, ((alGet? (run (DeviceRateLimiter.init maxs) ops).active_sessions d).isSome = true ∨
        (alGet? (run (DeviceRateLimiter.init maxs) ops).http_requests d).isSome = true) →
      some d ∈ ops.map Op.device) := by
  refine ⟨?_, ?_, ?_⟩
  · intro d
    exact (Inv_run maxs _ ops (Inv_init maxs)).2.2 d
  · exact httpLen_run ops (DeviceRateLimiter.init maxs)
      (by intro d l hl; simp [DeviceRateLimiter.init, alGet?] at hl)
  · intro d h
    rcases keys_run ops (DeviceRateLimiter.init maxs) d h with h2 | h2
    · rcases h2 with h2 | h2 <;>
        simp [DeviceRateLimiter.init, alGet?] at h2
    · exact h2

/-- Witness for C9's amended bound at a concrete trace. -/
theorem state_bounded_by_devices_ever_seen_witness :
    get_active_session_count
        (run (DeviceRateLimiter.init 8) [Op.http "d" 0, Op.reg "d" "s" "u" 0 0])
        "d" ≤ 8 ∧
    ((alGet? (run (DeviceRateLimiter.init 8)
        [Op.http "d" 0, Op.reg "d" "s" "u" 0 0]).http_requests "d").isSome = true →
      some "d" ∈ [Op.http "d" 0, Op.reg "d" "s" "u" 0 0].map Op.device) :=
  ⟨(state_bounded_by_devices_ever_seen 8
      [Op.http "d" 0, Op.reg "d" "s" "u" 0 0]).1 "d",
   fun h => (state_bounded_by_devices_ever_seen 8
      [Op.http "d" 0, Op.reg "d" "s" "u" 0 0]).2.2 "d" (Or.inr h)⟩

/-! ### Record evolution -/

theorem lookup_http (cap : Nat) (st : DeviceRateLimiter) (d0 : String)
    (now : Int) (d s : String) :
    lookup_session (check_http_rate_limit_with cap st d0 now).2 d s =
      lookup_session st d s := by
  rw [lookup_session, (check_http_active cap st d0 now).1, lookup_session]

theorem lookup_cleanup_sub (st : DeviceRateLimiter) (now mi : Int)
    (hWF : WF st) (d s : String) (info' : SessionInfo)
    (h : lookup_session (cleanup_stale_sessions st now mi).2 d s = some info') :
    lookup_session st d s = some info' := by
  obtain ⟨ha, _, _⟩ := cleanup_snd st now mi
  rw [lookup_session, ha, alGet?_filter_of_nodup _ _ _
    (by rw [alKeys_map_values]; exact hWF.1), alGet?_map_values] at h
  rcases h2 : alGet? st.active_sessions d with _ | inner
  · rw [h2] at h
    simp at h
  · rw [h2] at h
    simp only [Option.map_some'] at h
    by_cases hk : (! (inner.filter (fun p => ! is_stale now mi p)).isEmpty) = true
    · rw [if_pos hk] at h
      simp only at h
      have hinner_nd : (alKeys inner).Nodup :=
        (hWF.2.1 _ (mem_of_alGet?_eq_some h2)).1
      rw [alGet?_filter_of_nodup _ _ _ hinner_nd] at h
      rcases h3 : alGet? inner s with _ | info
      · rw [h3] at h
        simp at h
      · rw [h3] at h
        simp only at h
        by_cases hq : (! is_stale now mi (s, info)) = true
        · rw [if_pos hq] at h
          cases h
          rw [lookup_session, h2]
          exact h3
        · rw [if_neg hq] at h
          simp at h
    · rw [if_neg hk] at h
      simp at h

/-- `regReadsEq op` says the two clock reads of a registration coincide
(vacuous for the other operations). -/
def regReadsEq : Op → Prop
  | Op.reg _ _ _ tc ta => tc = ta
  | _ => True

instance (op : Op) : Decidable (regReadsEq op) := by
  cases op <;> simp only [regReadsEq] <;> infer_instance

/-- After one operation, a stored record is either a record the operation
found in place, or the record freshly written by that very registration. -/
theorem lookup_applyOp_cases (st : DeviceRateLimiter) (op : Op)
    (d s : String) (info' : SessionInfo) (hWF : WF st)
    (h : lookup_session (applyOp st op) d s = some info') :
    lookup_session st d s = some info' ∨
      ∃ u tc ta, op = Op.reg d s u tc ta ∧ info' = ⟨s, u, tc, ta⟩ := by
  cases op with
  | reg d0 s0 u tc ta =>
    have h2 : lookup_session (register_session st d0 s0 u tc ta).2 d s =
      some info' := h
    by_cases hds : d = d0 ∧ s = s0
    · obtain ⟨rfl, rfl⟩ := hds
      by_cases hc : can_create_session st d
      · rw [lookup_register_self st d s u tc ta hc] at h2
        cases h2
        exact Or.inr ⟨u, tc, ta, rfl, rfl⟩
      · rw [register_fail s u tc ta hc] at h2
        exact Or.inl h2
    · rw [lookup_register_ne st d0 s0 u tc ta d s
        (fun hh => hds ⟨hh.1, hh.2⟩)] at h2
      exact Or.inl h2
  | unreg d0 s0 =>
    have h2 : lookup_session (unregister_session st d0 s0).2 d s =
      some info' := h
    rcases hl : lookup_session st d0 s0 with _ | v
    · rw [unreg_not_found st d0 s0 hl] at h2
      exact Or.inl h2
    · rw [lookup_session] at hl
      rcases hget : alGet? st.active_sessions d0 with _ | inner
      · rw [hget] at hl
        simp at hl
      · rw [hget] at hl
        simp only at hl
        have hs0 : (alGet? inner s0).isSome := by simp [hl]
        have hinner_nd : (alKeys inner).Nodup :=
          (hWF.2.1 _ (mem_of_alGet?_eq_some hget)).1
        rw [unreg_snd_found st d0 s0 inner hget hs0] at h2
        unfold unregister_rest at h2
        by_cases he : (alErase inner s0).isEmpty
        · simp only [he, if_true] at h2
          by_cases hd : d = d0
          · subst hd
            rw [lookup_session, alGet?_erase_self _ _ hWF.1] at h2
            simp at h2
          · rw [lookup_session,
              alGet?_erase_ne _ _ _ (fun hh => hd hh.symm)] at h2
            exact Or.inl (by rw [lookup_session]; exact h2)
        · simp only [he, Bool.false_eq_true, if_false] at h2
          by_cases hd : d = d0
          · subst hd
            rw [lookup_session, alGet?_insert_self] at h2
            simp only at h2
            by_cases hss : s = s0
            · subst hss
              rw [alGet?_erase_self _ _ hinner_nd] at h2
              simp at h2
            · rw [alGet?_erase_ne _ _ _ (fun hh => hss hh.symm)] at h2
              exact Or.inl (by rw [lookup_session, hget]; exact h2)
          · rw [lookup_session,
              alGet?_insert_ne _ _ _ _ (fun hh => hd hh.symm)] at h2
            exact Or.inl (by rw [lookup_session]; exact h2)
  | http d0 now =>
    have h2 : lookup_session
        (check_http_rate_limit_with MAX_HTTP_REQUESTS_PER_MINUTE st d0 now).2
        d s = some info' := h
    rw [lookup_http] at h2
    exact Or.inl h2
  | cleanup now mi =>
    exact Or.inl (lookup_cleanup_sub st now mi hWF d s info' h)

theorem timestamps_eq_run (ops : List Op) :
    ∀ st : DeviceRateLimiter, WF st →
      (∀ d s info, lookup_session st d s = some info →
        info.last_activity = info.created_at) →
      (∀ op ∈ ops, regReadsEq op) →
      ∀ d s info, lookup_session (run st ops) d s = some info →
        info.last_activity = info.created_at := by
  induction ops with
  | nil => exact fun st _ h _ => h
  | cons op rest ih =>
    intro st hWF hts hreads d s info hl
    refine ih (applyOp st op) (WF_applyOp st op hWF) ?_
      (fun o ho => hreads o (List.mem_cons_of_mem _ ho)) d s info hl
    intro d' s' info' hl'
    rcases lookup_applyOp_cases st op d' s' info' hWF hl' with
      h | ⟨u, tc, ta, hop, hinfo⟩
    · exact hts d' s' info' h
    · subst hop
      have hre := hreads _ (List.mem_cons_self _ _)
      simp only [regReadsEq] at hre
      subst hinfo
      exact hre.symm

/-- C10 counterexample: the two `datetime.now()` default-factory reads that
fill `created_at` and `last_activity` are distinct clock reads (they were
observed to differ at microsecond granularity when running the source), so
a register call whose reads return 10 and then 11 produces a reachable
record with `last_activity ≠ created_at`, against the claim that the two
are equal in every reachable state. -/
theorem record_with_distinct_timestamps_reachable :
    lookup_session (run (DeviceRateLimiter.init 8) [Op.reg "d" "s" "u" 10 11])
        "d" "s" =
      some ⟨"s", "u", 10, 11⟩ ∧
    ¬ ((11 : Int) = 10) :=
  ⟨by decide, by decide⟩

/-- C10 amended: no operation mutates a stored record in place — after any
operation a stored record is either exactly the record that was already
there, or the record wholesale-written by that registration — and both
timestamps are set only at creation; consequently, whenever each
registration's two clock reads coincide, every reachable record satisfies
`last_activity = created_at`, and idle reclamation measures age from this
creation-time stamp. -/
theorem last_activity_set_only_at_creation (maxs : Nat) (ops : List Op)
    (hreads : ∀ op ∈ ops, regReadsEq op) :
    (∀ d s info,
      lookup_session (run (DeviceRateLimiter.init maxs) ops) d s = some info →
      info.last_activity = info.created_at) ∧
    (∀ (st : DeviceRateLimiter) (op : Op) (d s : String)
        (info info' : SessionInfo), WF st →
      lookup_session st d s = some info →
      lookup_session (applyOp st op) d s = some info' →
      info' = info ∨
        ∃ u tc ta, op = Op.reg d s u tc ta ∧ info' = ⟨s, u, tc, ta⟩) := by
  constructor
  · exact timestamps_eq_run ops (DeviceRateLimiter.init maxs)
      (WF_init maxs)
      (by
        intro d s info hl
        simp [lookup_session, DeviceRateLimiter.init, alGet?] at hl)
      hreads
  · intro st op d s info info' hWF hpre hpost
    rcases lookup_applyOp_cases st op d s info' hWF hpost with h | h
    · exact Or.inl (Option.some.inj (hpre.symm.trans h)).symm
    · exact Or.inr h

/-- Witness for C10's amended claim: a single-clock registration trace. -/
theorem last_activity_set_only_at_creation_witness :
    (∀ op ∈ [Op.reg "d" "s" "u" 5 5], regReadsEq op) ∧
    (∀ d s info, lookup_session
        (run (DeviceRateLimiter.init 8) [Op.reg "d" "s" "u" 5 5]) d s =
        some info → info.last_activity = info.created_at) :=
  ⟨by decide,
   (last_activity_set_only_at_creation 8 [Op.reg "d" "s" "u" 5 5]
      (by decide)).1⟩

end RL
